import Mathlib

/-!
Shallow embedding of the RozgarAI backend (smartchatbotbackend).

Strings are modelled as lists of characters.  Dynamically typed JavaScript
values are modelled by the inductive type `JsVal`; a JavaScript `TypeError`
(calling a string method on a non-string, or reading a property of
`null`/`undefined`) is modelled by `Except JsError`.  External services
(the chat completions API, the jsearch job-search API, Firestore) are
modelled as explicit environment records supplying their outcomes, and each
handler returns its HTTP response together with the relevant trace of
external operations.
-/

namespace SmartChat

abbrev Str := List Char

/-- whitespace class of the JavaScript regular-expression escape class \s
(the ASCII part, which also covers String.prototype.trim). -/
def jsWhitespace (c : Char) : Bool :=
  c = ' ' || c = '\t' || c = '\n' || c = '\r' || c = '\x0b' || c = '\x0c'

/-- JavaScript String.prototype.trim on a character list. -/
def jsTrim (s : Str) : Str :=
  ((s.dropWhile jsWhitespace).reverse.dropWhile jsWhitespace).reverse

/-- lower-casing of a character list (JS String.prototype.toLowerCase). -/
def toLowerStr (s : Str) : Str := s.map Char.toLower

/-- JavaScript dynamic values, as far as this backend manipulates them. -/
inductive JsVal where
  | vNull
  | vUndef
  | vBool (b : Bool)
  | vNum (n : Int)
  | vStr (s : Str)
  | vArr (elems : List JsVal)
  | vObj (fields : List (Str × JsVal))

/-- JavaScript exceptions thrown by the code under study (always TypeError). -/
inductive JsError where
  | typeError
deriving DecidableEq

open JsVal

/-- JavaScript truthiness (NaN does not arise in the model). -/
def truthy : JsVal → Bool
  | vNull => false
  | vUndef => false
  | vBool b => b
  | vNum n => n ≠ 0
  | vStr s => s ≠ []
  | vArr _ => true
  | vObj _ => true

/-- property lookup in an object field list (first binding wins). -/
def lookupField (fs : List (Str × JsVal)) (k : Str) : JsVal :=
  match fs.find? (fun p => p.1 = k) with
  | some p => p.2
  | none => vUndef

/-- JavaScript property access `v.k`: throws on null/undefined, yields
undefined on primitives and on objects lacking the field. -/
def getProp : JsVal → Str → Except JsError JsVal
  | vNull, _ => .error .typeError
  | vUndef, _ => .error .typeError
  | vObj fs, k => .ok (lookupField fs k)
  | _, _ => .ok vUndef

/-- JavaScript optional-chained access `v?.k`: undefined instead of a throw. -/
def getPropOpt (v : JsVal) (k : Str) : JsVal :=
  match v with
  | vNull => vUndef
  | vUndef => vUndef
  | vObj fs => lookupField fs k
  | _ => vUndef

/-- JS `a || b` on a JsVal with a default. -/
def jsOr (a b : JsVal) : JsVal := if truthy a then a else b

/-!
cleanJobDescription (src/server.js lines 841-870).  The description is split
on the regular expression /\n\s*\n/, every paragraph is re-flowed (single
newlines replaced by spaces, then trimmed), empty paragraphs are dropped,
duplicates are removed by insertion into a Set, and the survivors are joined
with a blank line.
-/

/-- remainder of the input after the greedy match of the `\s*\n` tail of the
paragraph separator regex /\n\s*\n/, when it matches at the head. -/
def sepTail : Str → Option Str
  | [] => none
  | c :: cs =>
    if jsWhitespace c then
      match sepTail cs with
      | some r => some r
      | none => if c = '\n' then some cs else none
    else none

/-- accumulator-based splitting of a string on the regex /\n\s*\n/, with the
greedy, leftmost, non-overlapping matching of JS String.prototype.split. -/
def splitParasAux (acc : Str) (s : Str) : List Str :=
  match s with
  | [] => [acc.reverse]
  | c :: rest =>
    if c = '\n' then
      match h : sepTail rest with
      | some rem => acc.reverse :: splitParasAux [] rem
      | none => splitParasAux (c :: acc) rest
    else splitParasAux (c :: acc) rest
termination_by s.length
decreasing_by
  · have key : ∀ {s r : Str}, sepTail s = some r → r.length < s.length := by
      intro s
      induction s with
      | nil => intro r hr; simp [sepTail] at hr
      | cons c cs ih =>
        intro r hr
        unfold sepTail at hr
        by_cases hw : jsWhitespace c = true
        · rw [if_pos hw] at hr
          cases hrec : sepTail cs with
          | some r₂ =>
            rw [hrec] at hr
            injection hr with h₂
            subst h₂
            exact Nat.lt_trans (ih hrec) (Nat.lt_succ_self _)
          | none =>
            rw [hrec] at hr
            by_cases hn : c = '\n'
            · rw [if_pos hn] at hr
              injection hr with h₂
              subst h₂
              exact Nat.lt_succ_self _
            · rw [if_neg hn] at hr
              cases hr
        · rw [if_neg hw] at hr
          cases hr
    exact Nat.lt_trans (key h) (Nat.lt_succ_self _)
  · exact Nat.lt_succ_self _
  · exact Nat.lt_succ_self _

/-- JS description.split(/\n\s*\n/). -/
def splitParas (s : Str) : List Str := splitParasAux [] s

/-- re-flow of one paragraph: para.replace(/\n/g, ' ').trim(). -/
def reFlow (para : Str) : Str :=
  jsTrim (para.map (fun c => if c = '\n' then ' ' else c))

/-- insertion-ordered de-duplication keeping track of the strings already
added, as performed by inserting strings into a JS Set one by one. -/
def dedupFirstAux (seen : List Str) : List Str → List Str
  | [] => []
  | x :: xs =>
    if x ∈ seen then dedupFirstAux seen xs
    else x :: dedupFirstAux (x :: seen) xs

/-- insertion-ordered de-duplication, as performed by adding strings to a JS
Set and reading the Set back: the first occurrence of each string is kept. -/
def dedupFirst (l : List Str) : List Str := dedupFirstAux [] l

/-- the default string returned for falsy or non-string descriptions. -/
def noDescription : Str := "No description available.".toList

/-- paragraphs surviving the cleaning pipeline: split on /\n\s*\n/, re-flow,
drop empties, de-duplicate keeping first occurrences. -/
def cleanParas (s : Str) : List Str :=
  dedupFirst (((splitParas s).map reFlow).filter (fun p => p ≠ []))

/-- JS Array.prototype.join with a separator string. -/
def joinSep (sep : Str) : List Str → Str
  | [] => []
  | [p] => p
  | p :: l => p ++ sep ++ joinSep sep l

/-- the joined clean description of a non-empty string input. -/
def cleanJobDescriptionStr (s : Str) : Str :=
  joinSep ['\n', '\n'] (cleanParas s)

/-- cleanJobDescription from src/server.js: the default for falsy or
non-string input, otherwise the unique re-flowed paragraphs joined by a
blank line. -/
def cleanJobDescription (description : JsVal) : Str :=
  match description with
  | vStr s => if s = [] then noDescription else cleanJobDescriptionStr s
  | _ => noDescription

/-- the segments of a string separated by the literal two-character
separator "\n\n", scanning left to right without overlap.  This realises
the phrase "the segments separated by a blank line" used to state the
paragraph properties of cleaned descriptions. -/
def splitOnNNAux (acc : Str) : Str → List Str
  | [] => [acc.reverse]
  | c :: rest =>
    if c = '\n' then
      match rest with
      | [] => splitOnNNAux (c :: acc) []
      | d :: rest₂ =>
        if d = '\n' then acc.reverse :: splitOnNNAux [] rest₂
        else splitOnNNAux (c :: acc) (d :: rest₂)
    else splitOnNNAux (c :: acc) rest

/-- segments of a string separated by the literal "\n\n". -/
def splitOnNN (s : Str) : List Str := splitOnNNAux [] s

/-!
JavaScript string/number conversions used by the formatting helpers.
-/

mutual
/-- JS ToString, as used by template literals and String(). -/
def jsToString : JsVal → Str
  | vNull => "null".toList
  | vUndef => "undefined".toList
  | vBool true => "true".toList
  | vBool false => "false".toList
  | vNum n => (toString n).toList
  | vStr s => s
  | vArr xs => joinSep [','] (jsToStringElems xs)
  | vObj _ => "[object Object]".toList

/-- element strings of Array.prototype.toString: null/undefined print empty. -/
def jsToStringElems : List JsVal → List Str
  | [] => []
  | v :: vs =>
    (match v with
      | vNull => []
      | vUndef => []
      | w => jsToString w) :: jsToStringElems vs
end

/-- grouping of a reversed digit string into blocks of three. -/
def groupThousandsRev : Str → Str
  | a :: b :: c :: d :: rest => a :: b :: c :: ',' :: groupThousandsRev (d :: rest)
  | l => l

/-- thousands separators of Number.prototype.toLocaleString (en-US digits). -/
def groupThousands (s : Str) : Str := (groupThousandsRev s.reverse).reverse

/-- Number.prototype.toLocaleString on an integer. -/
def numToLocaleString (n : Int) : Str :=
  (if n < 0 then ['-'] else []) ++ groupThousands (toString n.natAbs).toList

mutual
/-- JS v.toLocaleString(): every value has one through its prototype except
null and undefined, on which the method call throws. -/
def jsToLocaleString : JsVal → Except JsError Str
  | vNull => .error .typeError
  | vUndef => .error .typeError
  | vBool true => .ok "true".toList
  | vBool false => .ok "false".toList
  | vNum n => .ok (numToLocaleString n)
  | vStr s => .ok s
  | vArr xs => (jsToLocaleElems xs).map (joinSep [','])
  | vObj _ => .ok "[object Object]".toList

/-- element strings of Array.prototype.toLocaleString: null/undefined print
empty, other elements print via their own toLocaleString. -/
def jsToLocaleElems : List JsVal → Except JsError (List Str)
  | [] => .ok []
  | v :: vs =>
    match v with
    | vNull => (jsToLocaleElems vs).map (fun r => [] :: r)
    | vUndef => (jsToLocaleElems vs).map (fun r => [] :: r)
    | w => do
      let hd ← jsToLocaleString w
      let tl ← jsToLocaleElems vs
      .ok (hd :: tl)
end

/-- a decimal number num / 10^scale; the model of finite JS numbers met here. -/
structure DecNum where
  num : Int
  scale : Nat

/-- numeric value of a digit string. -/
def digitsToNat (s : Str) : Nat :=
  s.foldl (fun a c => a * 10 + (c.toNat - '0'.toNat)) 0

/-- JS Number() on an already-trimmed string: empty is 0, signed decimal
literals parse, anything else is NaN (modelled as none). -/
def parseDecString (s : Str) : Option DecNum :=
  match s with
  | [] => some ⟨0, 0⟩
  | _ =>
    let body := match s with
      | '-' :: t => t
      | '+' :: t => t
      | t => t
    let sign : Int := match s with
      | '-' :: _ => -1
      | _ => 1
    let intPart := body.takeWhile Char.isDigit
    let rest := body.dropWhile Char.isDigit
    match rest with
    | [] =>
      if body = [] then none
      else some ⟨sign * digitsToNat intPart, 0⟩
    | '.' :: frac =>
      if frac.all Char.isDigit && (intPart ≠ [] || frac ≠ []) then
        some ⟨sign * (digitsToNat intPart * 10 ^ frac.length + digitsToNat frac), frac.length⟩
      else none
    | _ => none

/-- JS ToNumber coercion (none models NaN). -/
def jsToNumber : JsVal → Option DecNum
  | vNull => some ⟨0, 0⟩
  | vUndef => none
  | vBool true => some ⟨1, 0⟩
  | vBool false => some ⟨0, 0⟩
  | vNum n => some ⟨n, 0⟩
  | vStr s => parseDecString (jsTrim s)
  | vArr xs => parseDecString (jsTrim (jsToString (vArr xs)))
  | vObj _ => none

/-- the JS comparison v < k against an integer literal (false on NaN). -/
def jsLtInt (v : JsVal) (k : Int) : Bool :=
  match jsToNumber v with
  | none => false
  | some d => d.num < k * (10 : Int) ^ d.scale

/-- rendering of (x).toFixed(1) for x = d / 12: the nearest tenth, ties
towards the larger value, printed with exactly one decimal. -/
def toFixed1Div12 (d : Option DecNum) : Str :=
  match d with
  | none => "NaN".toList
  | some d =>
    let denom : Int := 12 * (10 : Int) ^ d.scale
    let n : Int := Int.fdiv (20 * d.num + denom) (2 * denom)
    let a := n.natAbs
    (if n < 0 then ['-'] else []) ++ (toString (a / 10)).toList ++ ['.'] ++ (toString (a % 10)).toList

/-- JS String.prototype.replace with a plain string pattern: only the first
occurrence is replaced. -/
def replaceFirst (pat rep : Str) : Str → Str
  | [] => if pat.isPrefixOf ([] : Str) then rep else []
  | c :: t =>
    if pat.isPrefixOf (c :: t) then rep ++ (c :: t).drop pat.length
    else c :: replaceFirst pat rep t

/-- substring test (JS String.prototype.includes). -/
def containsSub (pat : Str) : Str → Bool
  | [] => pat.isPrefixOf ([] : Str)
  | c :: t => pat.isPrefixOf (c :: t) || containsSub pat t

/-!
formatSalary and getJobType (src/server.js lines 804-834).
-/

def notDisclosed : Str := "Not Disclosed".toList

/-- formatSalary from src/server.js: formats the salary fields of a jsearch
job object, throwing a TypeError when a truthy job_salary_period is not a
string (its toLowerCase is called unconditionally in that branch). -/
def formatSalary (job : JsVal) : Except JsError Str := do
  if truthy job = false then return notDisclosed
  let min := getPropOpt job "job_min_salary".toList
  let max := getPropOpt job "job_max_salary".toList
  let currency := jsOr (getPropOpt job "job_salary_currency".toList) (vStr [])
  let period ←
    if truthy (getPropOpt job "job_salary_period".toList) then
      match getPropOpt job "job_salary_period".toList with
      | vStr s => pure ("per ".toList ++ toLowerStr s)
      | _ => throw JsError.typeError
    else pure ([] : Str)
  if truthy min && truthy max then
    let ms ← jsToLocaleString min
    let xs ← jsToLocaleString max
    return jsToString currency ++ [' '] ++ ms ++ " - ".toList ++ xs ++ [' '] ++ period
  else if truthy min then
    let ms ← jsToLocaleString min
    return jsToString currency ++ [' '] ++ ms ++ [' '] ++ period
  else if truthy max then
    let xs ← jsToLocaleString max
    return jsToString currency ++ [' '] ++ xs ++ [' '] ++ period
  else return notDisclosed

/-- getJobType from src/server.js: Remote for a truthy job_is_remote flag,
otherwise the capitalised employment type, otherwise On-site; calling charAt
on a truthy non-string employment type throws. -/
def getJobType (job : JsVal) : Except JsError Str := do
  if truthy job = false then return "N/A".toList
  if truthy (getPropOpt job "job_is_remote".toList) then return "Remote".toList
  let empType := getPropOpt job "job_employment_type".toList
  if truthy empType then
    match empType with
    | vStr s => return s.take 1 ++ toLowerStr (s.drop 1)
    | _ => throw JsError.typeError
  else return "On-site".toList

/-!
getExperience (src/server.js lines 875-925), including a faithful
backtracking matcher for the fallback regular expression
/(\d[\d.,-]*\+?)\s*(to|-)?\s*(\d[\d.,-]*\+?)?\s*(year|yr|month)s?/i,
applied to the lower-cased description.
-/

/-- the character class [\d.,-] of the experience regex. -/
def expNumCls (c : Char) : Bool := c.isDigit || c = '.' || c = ',' || c = '-'

/-- candidate (consumed, rest) splits of a greedy p* quantifier, longest
consumed run first, as tried by a backtracking regex engine. -/
def greedyTakes (p : Char → Bool) (s : Str) : List (Str × Str) :=
  let r := s.takeWhile p
  (List.range (r.length + 1)).reverse.map (fun j => (s.take j, s.drop j))

/-- candidate rests of a greedy \s* quantifier, in backtracking order. -/
def wsRests (s : Str) : List Str := (greedyTakes jsWhitespace s).map (fun q => q.2)

/-- candidate (consumed, rest) splits of \+? in backtracking order. -/
def plusOpts : Str → List (Str × Str)
  | '+' :: t => [(['+'], t), ([], '+' :: t)]
  | s => [([], s)]

/-- candidate (captured, rest) splits of \d[\d.,-]*\+? once the leading
digit d has been read, in backtracking order. -/
def numTokenOpts (d : Char) (s : Str) : List (Str × Str) :=
  (greedyTakes expNumCls s).flatMap (fun q =>
    (plusOpts q.2).map (fun r => (d :: (q.1 ++ r.1), r.2)))

/-- candidate rests of the optional (to|-)? group, alternatives in written
order and the empty option last. -/
def dashRests (s : Str) : List Str :=
  (if "to".toList.isPrefixOf s then [s.drop 2] else []) ++
  (match s with
    | '-' :: t => [t]
    | _ => []) ++ [s]

/-- candidate (capture, rest) splits of the optional third group
(\d[\d.,-]*\+?)?, present options first. -/
def group3Opts (s : Str) : List (Option Str × Str) :=
  (match s with
    | d :: t => if d.isDigit then (numTokenOpts d t).map (fun q => (some q.1, q.2)) else []
    | [] => []) ++ [(none, s)]

/-- the final unit alternation (year|yr|month); the trailing s? never fails
and captures nothing. -/
def unitMatch (s : Str) : Option Str :=
  if "year".toList.isPrefixOf s then some "year".toList
  else if "yr".toList.isPrefixOf s then some "yr".toList
  else if "month".toList.isPrefixOf s then some "month".toList
  else none

/-- match of the experience regex anchored at the start of s, in the
backtracking preference order of a JS regex engine; yields the captures
(match 1, optional match 3, match 4). -/
def expMatchAt : Str → Option (Str × Option Str × Str)
  | [] => none
  | d :: s1 =>
    if d.isDigit then
      (numTokenOpts d s1).findSome? (fun g1 =>
        (wsRests g1.2).findSome? (fun s3 =>
          (dashRests s3).findSome? (fun s4 =>
            (wsRests s4).findSome? (fun s5 =>
              (group3Opts s5).findSome? (fun g3 =>
                (wsRests g3.2).findSome? (fun s7 =>
                  (unitMatch s7).map (fun u => (g1.1, g3.1, u))))))))
    else none

/-- leftmost match of the experience regex anywhere in the string. -/
def expMatch : Str → Option (Str × Option Str × Str)
  | [] => none
  | c :: rest =>
    match expMatchAt (c :: rest) with
    | some r => some r
    | none => expMatch rest

/-- the years string of the structured branch:
(months / 12).toFixed(1).replace(".0", ""). -/
def yearsOfMonths (months : JsVal) : Str :=
  replaceFirst ".0".toList [] (toFixed1Div12 (jsToNumber months))

/-- fallback scan of the raw description (step 2 of getExperience). -/
def getExperienceStep2 (job : JsVal) : Except JsError Str :=
  let desc := getPropOpt job "job_description".toList
  if truthy desc then
    match desc with
    | vStr ds =>
      let description := toLowerStr ds
      match expMatch description with
      | some (g1, some g3, unit) => .ok (g1 ++ ['-'] ++ g3 ++ [' '] ++ unit ++ ['s'])
      | some (g1, none, unit) => .ok (g1 ++ [' '] ++ unit ++ ['s'])
      | none =>
        if containsSub "entry level".toList description ||
            containsSub "no experience".toList description then .ok "Entry Level".toList
        else .ok notDisclosed
    | _ => .error .typeError
  else .ok notDisclosed

/-- getExperience from src/server.js: structured experience data first, then
the regex scan of the description, then the Not Disclosed default. -/
def getExperience (job : JsVal) : Except JsError Str :=
  if truthy job = false then .ok notDisclosed
  else
    let reqExp := getPropOpt job "job_required_experience".toList
    let step1 : Option Str :=
      if truthy reqExp then
        if truthy (getPropOpt reqExp "no_experience_required".toList) then
          some "Entry Level".toList
        else
          let months := getPropOpt reqExp "required_experience_in_months".toList
          if truthy months then
            some (if jsLtInt months 12 then jsToString months ++ " months".toList
                  else yearsOfMonths months ++ "+ years".toList)
          else none
      else none
    match step1 with
    | some r => .ok r
    | none => getExperienceStep2 job

/-!
getCompanyLogo (src/server.js lines 767-797): a best-effort key-value memo
for company logos backed by the Firestore collection company_logos.
-/

/-- outcome of the cache read logoRef.get(). -/
inductive CacheRead where
  | found (url : Str)
  | missing
  | failure

/-- environment of getCompanyLogo: the cache content by key and whether the
fire-and-forget cache write succeeds. -/
structure LogoEnv where
  cacheRead : Str → CacheRead
  writeOk : Bool

/-- Firestore operations performed by getCompanyLogo, in order. -/
inductive LogoOp where
  | read (key : Str)
  | write (key : Str) (url : Str) (ok : Bool)

/-- global removal of the alternation inc|llc|ltd|pvt, scanning left to
right without rescanning replaced text, as String.prototype.replace does. -/
def stripCorpTokens : Str → Str
  | 'i' :: 'n' :: 'c' :: rest => stripCorpTokens rest
  | 'l' :: 'l' :: 'c' :: rest => stripCorpTokens rest
  | 'l' :: 't' :: 'd' :: rest => stripCorpTokens rest
  | 'p' :: 'v' :: 't' :: rest => stripCorpTokens rest
  | c :: rest => c :: stripCorpTokens rest
  | [] => []

/-- the character class [a-z0-9] kept by the first replace. -/
def alnumLower (c : Char) : Bool := ('a' ≤ c && c ≤ 'z') || ('0' ≤ c && c ≤ '9')

/-- the normalised cache key of a company name. -/
def companyKeyOf (name : Str) : Str :=
  stripCorpTokens ((toLowerStr name).filter alnumLower)

/-- the guessed logo URL used on a cache miss. -/
def guessedLogoUrl (key : Str) : Str :=
  "https://img.logo.dev/".toList ++ key ++ ".com".toList

/-- getCompanyLogo from src/server.js: returns a provided jsearch logo
unchanged without touching the cache, otherwise serves from the cache by
normalised company key, guessing and caching best-effort on a miss; null for
unusable names or a failed cache read. -/
def getCompanyLogo (env : LogoEnv) (companyName jsearchLogo : JsVal) :
    Except JsError (JsVal × List LogoOp) := do
  if truthy jsearchLogo then return (jsearchLogo, [])
  if truthy companyName = false then return (vNull, [])
  let nameStr ← match companyName with
    | vStr s => pure s
    | _ => throw JsError.typeError
  if jsTrim nameStr = [] then return (vNull, [])
  let companyKey := companyKeyOf nameStr
  if companyKey = [] then return (vNull, [])
  match env.cacheRead companyKey with
  | .found url => return (vStr url, [LogoOp.read companyKey])
  | .missing =>
    return (vStr (guessedLogoUrl companyKey),
      [LogoOp.read companyKey, LogoOp.write companyKey (guessedLogoUrl companyKey) env.writeOk])
  | .failure => return (vNull, [LogoOp.read companyKey])

/-!
findJobs (src/server.js lines 932-1010) and the /jobs endpoint
(lines 1393-1412).
-/

/-- array/object index access through a property key made of digits. -/
def parseIndexKey (k : Str) : Option Nat :=
  if k ≠ [] && k.all Char.isDigit then some (digitsToNat k) else none

/-- JS property access extended to array elements (arr[0] is property "0"). -/
def getPropFull : JsVal → Str → Except JsError JsVal
  | vNull, _ => .error .typeError
  | vUndef, _ => .error .typeError
  | vObj fs, k => .ok (lookupField fs k)
  | vArr xs, k =>
    .ok (match parseIndexKey k with
      | some i => (xs.get? i).getD vUndef
      | none => vUndef)
  | _, _ => .ok vUndef

/-- JS optional-chained property access extended to array elements. -/
def getPropOptFull (v : JsVal) (k : Str) : JsVal :=
  match v with
  | vNull => vUndef
  | vUndef => vUndef
  | w => match getPropFull w k with
    | .ok r => r
    | .error _ => vUndef

/-- unreserved characters of encodeURIComponent. -/
def isUnreservedURI (c : Char) : Bool :=
  c.isAlpha || c.isDigit || c = '-' || c = '_' || c = '.' || c = '!' ||
  c = '~' || c = '*' || c = Char.ofNat 39 || c = '(' || c = ')'

/-- UTF-8 bytes of a character. -/
def utf8Bytes (c : Char) : List Nat :=
  let n := c.toNat
  if n < 0x80 then [n]
  else if n < 0x800 then [0xC0 + n / 0x40, 0x80 + n % 0x40]
  else if n < 0x10000 then [0xE0 + n / 0x1000, 0x80 + (n / 0x40) % 0x40, 0x80 + n % 0x40]
  else [0xF0 + n / 0x40000, 0x80 + (n / 0x1000) % 0x40, 0x80 + (n / 0x40) % 0x40, 0x80 + n % 0x40]

/-- upper-case hexadecimal digit. -/
def hexDigitU (n : Nat) : Char :=
  if n < 10 then Char.ofNat ('0'.toNat + n) else Char.ofNat ('A'.toNat + n - 10)

/-- JS encodeURIComponent. -/
def encodeURIComponent (s : Str) : Str :=
  (s.map (fun c =>
    if isUnreservedURI c then [c]
    else ((utf8Bytes c).map (fun b => ['%', hexDigitU (b / 16), hexDigitU (b % 16)])).flatten)).flatten

/-- environment of findJobs: whether JSEARCH_API_KEY is present, the parsed
JSON body of the jsearch response (or a thrown fetch/json error) as a
function of the query, and the logo-cache environment. -/
structure FindJobsEnv where
  apiKeyPresent : Bool
  fetchResult : Str → Except Unit JsVal
  logo : LogoEnv

/-- one mapped job of the findJobs result array. -/
structure JobOut where
  job_id : JsVal
  title : JsVal
  company : JsVal
  companyLogoUrl : JsVal
  location : Str
  description : Str
  applicationLink : JsVal
  salary : Str
  jobType : Str
  experience : Str

/-- the mapping of one raw jsearch job object to the reduced job record
(the callback of result.data.slice(0, 7).map in findJobs). -/
def mapJob (env : FindJobsEnv) (job : JsVal) : Except JsError JobOut := do
  let nameV ← getPropFull job "employer_name".toList
  let logoV ← getPropFull job "employer_logo".toList
  let logoRes ← getCompanyLogo env.logo nameV logoV
  let city ← getPropFull job "job_city".toList
  let state ← getPropFull job "job_state".toList
  let location := jsTrim (jsToString (jsOr city (vStr [])) ++
    (if truthy city && truthy state then ", ".toList else []) ++
    jsToString (jsOr state (vStr [])))
  let descV ← getPropFull job "job_description".toList
  let cleanDescription := cleanJobDescription descV
  let jobIdV ← getPropFull job "job_id".toList
  let titleV ← getPropFull job "job_title".toList
  let applyV ← getPropFull job "job_apply_link".toList
  let salary ← formatSalary job
  let jobType ← getJobType job
  let experience ← getExperience job
  return { job_id := jobIdV, title := titleV, company := nameV,
           companyLogoUrl := logoRes.1,
           location := if location = [] then "N/A".toList else location,
           description := if cleanDescription = [] then noDescription else cleanDescription,
           applicationLink := jsOr applyV
             (vStr ("https://www.google.com/search?q=".toList ++
               encodeURIComponent (jsToString titleV ++ [' '] ++ jsToString nameV))),
           salary := salary, jobType := jobType, experience := experience }

/-- the body of the try block of findJobs: query validation, the jsearch
call, and the mapping of at most seven jobs. -/
def findJobsBody (env : FindJobsEnv) (params : JsVal) : Except JsError (List JobOut) := do
  let p := jsOr params (vObj [])
  let query := getPropOpt p "query".toList
  if truthy query = false then return []
  let qs ← match query with
    | vStr s => pure s
    | _ => throw JsError.typeError
  if jsTrim qs = [] then return []
  match env.fetchResult qs with
  | .error _ => throw JsError.typeError
  | .ok result =>
    let data := getPropOptFull result "data".toList
    if truthy data = false then return []
    match data with
    | vArr xs =>
      if xs.length = 0 then return []
      else (xs.take 7).mapM (mapJob env)
    | _ => throw JsError.typeError

/-- findJobs from src/server.js: an empty list when the API key is absent and
whenever anything inside the try block throws. -/
def findJobs (env : FindJobsEnv) (params : JsVal) : List JobOut :=
  if env.apiKeyPresent = false then []
  else
    match findJobsBody env params with
    | .ok jobs => jobs
    | .error _ => []

/-- the search query chosen by the /jobs endpoint from the q and uid query
parameters and the fetched user preferences. -/
def jobsQueryOf (prefs : Option JsVal) (uid q : Option Str) : Str :=
  if q.getD [] ≠ [] then q.getD []
  else if uid.getD [] ≠ [] then
    match prefs with
    | some p =>
      jsToString (jsOr (getPropOpt p "skills".toList) (vStr "jobs".toList)) ++
        " in ".toList ++
        jsToString (jsOr (getPropOpt p "location".toList) (vStr "India".toList))
    | none => "tech jobs in India".toList
  else "jobs in India".toList

/-- the GET /jobs handler: builds the query, calls findJobs, and always
relays its (possibly empty) list with status 200, since both helper calls
swallow their own failures. -/
def jobsHandler (env : FindJobsEnv) (prefs : Option JsVal) (uid q : Option Str) :
    Nat × List JobOut :=
  (200, findJobs env (vObj [("query".toList, vStr (jobsQueryOf prefs uid q))]))

/-!
The corrected POST /chat endpoint (src/server.js lines 1134-1288): first
completions call with the tools, execution of every requested tool call,
one tool message per call carrying its tool_call_id, then one final
completions call whose content is relayed.
-/

/-- one entry of the tool_calls array of the first response message. -/
structure ToolCall where
  id : Str
  fname : Str
  arguments : Str

/-- an OpenAI chat completion message as read by the handler. -/
structure ChatMsgResp where
  content : Option Str
  tool_calls : Option (List ToolCall)

/-- environment of the /chat handler: the fetched user preferences, the two
completions responses (none models a response without usable choices), the
findJobs environment, and JSON.parse of raw tool arguments. -/
structure ChatEnv where
  prefs : Option JsVal
  firstResp : Option ChatMsgResp
  secondResp : Option ChatMsgResp
  findJobsEnv : FindJobsEnv
  parseArgs : Str → Option JsVal

/-- the serialised content of one tool message, as JSON.stringify of the
executed local result (or of the unknown-function error object). -/
inductive ToolContent where
  | jobsJson (jobs : List JobOut)
  | prefsJson (prefs : Option JsVal)
  | unknownFunctionError

/-- a role:"tool" message appended between the two completions calls. -/
structure ToolMsg where
  tool_call_id : Str
  fname : Str
  content : ToolContent

/-- execution of one requested tool call: parse the arguments (empty object
on a parse failure), then dispatch on the function name. -/
def execToolCall (env : ChatEnv) (tc : ToolCall) : ToolContent :=
  let functionArgs :=
    if tc.arguments = [] then vObj []
    else (env.parseArgs tc.arguments).getD (vObj [])
  if tc.fname = "find_jobs".toList then .jobsJson (findJobs env.findJobsEnv functionArgs)
  else if tc.fname = "get_user_info".toList then .prefsJson env.prefs
  else .unknownFunctionError

/-- the reply value returned to the client:
finalData.choices[0].message?.content || finalData.choices[0].message || "". -/
inductive ChatReply where
  | text (s : Str)
  | rawMessage (m : ChatMsgResp)

/-- body of the /chat response. -/
inductive ChatRespBody where
  | reply (r : ChatReply)
  | errorBody (msg : Str)

/-- the observable outcome of one /chat request: HTTP status, body, how many
completions-API calls were made, the appended tool messages, and the names
of the local wrapper functions actually executed. -/
structure ChatOutcome where
  status : Nat
  body : ChatRespBody
  completionsCalls : Nat
  toolMsgs : List ToolMsg
  localCalls : List Str

/-- the corrected POST /chat handler. -/
def chatHandler (env : ChatEnv) (uid message : JsVal) : ChatOutcome :=
  if truthy uid = false then
    ⟨400, .errorBody "User ID is missing.".toList, 0, [], []⟩
  else if (match message with | vStr s => jsTrim s == ([] : Str) | _ => true) then
    ⟨400, .errorBody "Message is empty.".toList, 0, [], []⟩
  else
    match env.firstResp with
    | none => ⟨500, .errorBody "Invalid response from language model.".toList, 1, [], []⟩
    | some firstMsg =>
      match firstMsg.tool_calls with
      | some tcs =>
        let toolMsgs := tcs.map (fun tc => ToolMsg.mk tc.id tc.fname (execToolCall env tc))
        let locals := tcs.filterMap (fun tc =>
          if tc.fname = "find_jobs".toList || tc.fname = "get_user_info".toList then
            some tc.fname
          else none)
        match env.secondResp with
        | none =>
          ⟨500, .errorBody "Failed to generate final response.".toList, 2, toolMsgs, locals⟩
        | some finalMsg =>
          ⟨200, .reply (match finalMsg.content with
            | some c => if c ≠ [] then .text c else .rawMessage finalMsg
            | none => .rawMessage finalMsg), 2, toolMsgs, locals⟩
      | none =>
        ⟨200, .reply (.text (match firstMsg.content with | some c => c | none => [])), 1, [], []⟩

/-!
GET /skills/analyze (src/server.js lines 1291-1391): required skills from
one completions call, then a per-missing-skill resource loop whose
individual failures are caught and skipped.
-/

/-- JS String.prototype.split(",") on a character list. -/
def splitCommaAux (acc : Str) : Str → List Str
  | [] => [acc.reverse]
  | c :: t => if c = ',' then acc.reverse :: splitCommaAux [] t else splitCommaAux (c :: acc) t

/-- JS String.prototype.split(","). -/
def splitComma (s : Str) : List Str := splitCommaAux [] s

/-- the optional chain data?.choices?.[0]?.message?.content. -/
def chainContent (v : JsVal) : JsVal :=
  getPropOptFull (getPropOptFull (getPropOptFull (getPropOptFull v "choices".toList) "0".toList) "message".toList) "content".toList

/-- environment of /skills/analyze: the user preferences, the outcome of the
required-skills completions call, and the outcome of the resource
completions call for each skill. -/
structure SkillsEnv where
  prefs : Option JsVal
  skillsResp : Except Unit JsVal
  resourceResp : Str → Except Unit JsVal

/-- body of the /skills/analyze response. -/
inductive SkillsBody where
  | result (jobRole : JsVal) (requiredSkills : List Str) (missingSkills : List Str)
      (learningResources : List (Str × Str))
  | errorBody (msg : Str)

/-- JS object key assignment on an insertion-ordered association list. -/
def setKey (m : List (Str × Str)) (k v : Str) : List (Str × Str) :=
  if m.any (fun p => p.1 = k) then m.map (fun p => if p.1 = k then (k, v) else p)
  else m ++ [(k, v)]

/-- one iteration of the learning-resources loop: the resource call, the
aggressive URL cleanup, and the protocol checks; none when the URL is not
kept. -/
def resourceStep (env : SkillsEnv) (skill : Str) : Except JsError (Option Str) := do
  match env.resourceResp skill with
  | .error _ => throw JsError.typeError
  | .ok rdata =>
    let raw ← match jsOr (chainContent rdata) (vStr []) with
      | vStr s => pure (jsTrim s)
      | _ => throw JsError.typeError
    let url := raw.filter (fun c =>
      !(c = Char.ofNat 34 || c = Char.ofNat 39 || c = Char.ofNat 96 || jsWhitespace c))
    if url ≠ [] && url.contains '.' then
      let url₂ :=
        if "http://".toList.isPrefixOf url || "https://".toList.isPrefixOf url then url
        else "https://".toList ++ url
      if "http".toList.isPrefixOf url₂ then return (some url₂) else return none
    else return none

/-- the learning-resources loop: failures of individual iterations are
caught, logged and skipped. -/
def resourceLoop (env : SkillsEnv) : List Str → List (Str × Str) → List (Str × Str)
  | [], acc => acc
  | skill :: rest, acc =>
    let acc₂ :=
      match resourceStep env skill with
      | .ok (some url) => setKey acc skill url
      | _ => acc
    resourceLoop env rest acc₂

/-- the try block of /skills/analyze. -/
def skillsTry (env : SkillsEnv) : Except JsError (Nat × SkillsBody) := do
  match env.prefs with
  | none => return (404, .errorBody "User profile or jobRole missing.".toList)
  | some p =>
    if truthy (getPropOpt p "jobRole".toList) = false then
      return (404, .errorBody "User profile or jobRole missing.".toList)
    let userSkills ← match jsOr (getPropOpt p "skills".toList) (vStr []) with
      | vStr s => pure (((splitComma (toLowerStr s)).map jsTrim).filter (fun x => x ≠ []))
      | _ => throw JsError.typeError
    let jobRole := getPropOpt p "jobRole".toList
    match env.skillsResp with
    | .error _ => throw JsError.typeError
    | .ok sdata =>
      let txt ← match jsOr (chainContent sdata) (vStr []) with
        | vStr s => pure s
        | _ => throw JsError.typeError
      let requiredSkills := ((splitComma txt).map (fun s => toLowerStr (jsTrim s))).filter (fun x => x ≠ [])
      let missingSkills := requiredSkills.filter (fun s => s ∉ userSkills)
      let learningResources := resourceLoop env missingSkills []
      return (200, .result jobRole requiredSkills missingSkills learningResources)

/-- the GET /skills/analyze handler. -/
def skillsAnalyze (env : SkillsEnv) (uid : Option Str) : Nat × SkillsBody :=
  if uid.getD [] = [] then (400, .errorBody "User ID required.".toList)
  else
    match skillsTry env with
    | .ok resp => resp
    | .error _ => (500, .errorBody "Skill analysis failed.".toList)

/-!
GET /counseling/get-specializations (src/server.js lines 1570-1612) and
GET /counseling/get-degrees (lines 1614-1650): the same completions-then-
JSON.parse chain, but with different catch blocks — the specializations
endpoint answers 200 with an empty list on failure, the degrees endpoint
answers 500.
-/

/-- environment of the two counseling list endpoints: the parsed body of the
completions response (error models a rejected fetch or json()), and
JSON.parse of the content string. -/
structure CounselEnv where
  resp : Except Unit JsVal
  parseJson : Str → Except Unit JsVal

/-- the shared try block: data.choices[0].message.content without optional
chaining, then JSON.parse; any failure throws. -/
def counselTry (env : CounselEnv) : Except JsError JsVal := do
  match env.resp with
  | .error _ => throw JsError.typeError
  | .ok data =>
    let choices ← getPropFull data "choices".toList
    let c0 ← getPropFull choices "0".toList
    let msg ← getPropFull c0 "message".toList
    let contentV ← getPropFull msg "content".toList
    match env.parseJson (jsToString contentV) with
    | .ok v => pure v
    | .error _ => throw JsError.typeError

/-- body of the get-specializations response. -/
inductive SpecBody where
  | specializations (v : JsVal)
  | errorBody (msg : Str)

/-- the GET /counseling/get-specializations handler: on any failure the
catch block answers 200 with an empty specializations array. -/
def getSpecializations (env : CounselEnv) (degree : Option Str) : Nat × SpecBody :=
  if degree.getD [] = [] then (400, .errorBody "Degree is required.".toList)
  else
    match counselTry env with
    | .ok v => (200, .specializations v)
    | .error _ => (200, .specializations (vArr []))

/-- body of the get-degrees response. -/
inductive DegreesBody where
  | degrees (v : JsVal)
  | errorBody (msg : Str)

/-- the GET /counseling/get-degrees handler: 500 with a generic error body
on any failure. -/
def getDegrees (env : CounselEnv) : Nat × DegreesBody :=
  match counselTry env with
  | .ok v => (200, .degrees v)
  | .error _ => (500, .errorBody "Failed to fetch degree list.".toList)

/-!
POST /users/:uid/saved-jobs (src/server.js lines 1430-1447) and
POST /interview-prep/increment-stat (lines 1669-1723).
-/

/-- body of the saved-jobs responses. -/
inductive SavedBody where
  | message (s : Str)
  | errorBody (s : Str)

/-- the POST /users/:uid/saved-jobs handler over the user's saved_jobs
subcollection (a map from document id to document): 400 for a falsy job_id,
otherwise the whole request body is stored verbatim under the job_id. -/
def savedJobsPost (writeOk : Bool) (store : Str → Option JsVal) (body : JsVal) :
    (Nat × SavedBody) × (Str → Option JsVal) :=
  let jobId := getPropOpt body "job_id".toList
  if truthy jobId = false then ((400, .errorBody "Job ID missing.".toList), store)
  else
    match jobId with
    | vStr s =>
      if writeOk then
        ((201, .message "Job saved.".toList), fun k => if k = s then some body else store k)
      else ((500, .errorBody "Could not save job.".toList), store)
    | _ => ((500, .errorBody "Could not save job.".toList), store)

/-- the five stat names accepted by /interview-prep/increment-stat. -/
def allowedStats : List Str :=
  ["hrAnswersCompleted".toList, "starStoriesSaved".toList, "techQuestionsPracticed".toList,
   "mockInterviewsRecorded".toList, "companyNotesCreated".toList]

/-- environment of /interview-prep/increment-stat: the existing user_stats
document (none when absent) and the failure switches of the two writes. -/
structure StatsEnv where
  doc : Option (Str → Option Int)
  updateFails : Bool
  createFails : Bool

/-- body of the increment-stat responses. -/
inductive StatsBody where
  | message (s : Str)
  | errorBody (s : Str)

/-- the document created when the update reports NOT_FOUND: all five stats
at 0 and the incremented one overridden to 1. -/
def defaultStatsDoc (statName : Str) : Str → Option Int :=
  fun f => if f = statName then some 1 else if allowedStats.contains f then some 0 else none

/-- FieldValue.increment(1) on one field of an existing document. -/
def incrementField (d : Str → Option Int) (statName : Str) : Str → Option Int :=
  fun f => if f = statName then some ((d statName).getD 0 + 1) else d f

/-- the POST /interview-prep/increment-stat handler, returning the response
and the resulting user_stats document. -/
def incrementStat (env : StatsEnv) (uid statName : JsVal) :
    (Nat × StatsBody) × Option (Str → Option Int) :=
  if truthy uid = false || truthy statName = false then
    ((400, .errorBody "uid and statName are required.".toList), env.doc)
  else
    let snOpt := match statName with | vStr s => some s | _ => none
    match snOpt with
    | none => ((400, .errorBody "Invalid statName.".toList), env.doc)
    | some sn =>
      if allowedStats.contains sn = false then
        ((400, .errorBody "Invalid statName.".toList), env.doc)
      else
        match uid with
        | vStr _ =>
          (match env.doc with
          | some d =>
            if env.updateFails then
              ((500, .errorBody "Failed to increment stat.".toList), some d)
            else
              ((200, .message ("Stat ".toList ++ sn ++ " incremented.".toList)),
                some (incrementField d sn))
          | none =>
            if env.createFails then
              ((500, .errorBody "Failed to create stats.".toList), none)
            else
              ((200, .message ("Stat ".toList ++ sn ++ " incremented.".toList)),
                some (defaultStatsDoc sn)))
        | _ => ((500, .errorBody "Failed to increment stat.".toList), env.doc)

/-- a string with no whitespace at either edge (the shape of trimmed
strings, used to reason about cleanJobDescription). -/
def noWsEdge (s : Str) : Bool :=
  (match s.head? with
    | some c => !jsWhitespace c
    | none => true) &&
  (match s.getLast? with
    | some c => !jsWhitespace c
    | none => true)

/-- whether the learning-resources loop keeps a usable URL for a skill. -/
def resourceKept (env : SkillsEnv) (sk : Str) : Bool :=
  match resourceStep env sk with
  | .ok (some _) => true
  | _ => false

/-!
Theorems.
-/

/-- C1: for every POST /chat request, the tool-calling orchestration is the
two-step sequential pattern: when the first completions response message
carries tool calls, the handler executes the named local wrapper per call
(find_jobs or get_user_info, an unknown name yielding the error object),
appends each result as a tool message carrying the tool_call_id, and makes
exactly one second completions call whose reply content is returned; with no
tool calls exactly one completions call is made and its content returned; no
call is retried (never more than two completions calls). -/
theorem chat_tool_orchestration_two_step (env : ChatEnv) (uid message : JsVal)
    (hu : truthy uid = true)
    (hm : ∃ s, message = vStr s ∧ jsTrim s ≠ []) :
    ∀ fm, env.firstResp = some fm →
      (∀ tcs, fm.tool_calls = some tcs →
        (chatHandler env uid message).completionsCalls = 2 ∧
        (chatHandler env uid message).toolMsgs =
          tcs.map (fun tc => ToolMsg.mk tc.id tc.fname
            (if tc.fname = "find_jobs".toList then
              ToolContent.jobsJson (findJobs env.findJobsEnv
                (if tc.arguments = [] then vObj []
                 else (env.parseArgs tc.arguments).getD (vObj [])))
             else if tc.fname = "get_user_info".toList then ToolContent.prefsJson env.prefs
             else ToolContent.unknownFunctionError)) ∧
        (∀ sm, env.secondResp = some sm →
          (chatHandler env uid message).status = 200 ∧
          (∀ c, sm.content = some c → c ≠ [] →
            (chatHandler env uid message).body = ChatRespBody.reply (ChatReply.text c)))) ∧
      (fm.tool_calls = none →
        (chatHandler env uid message).completionsCalls = 1 ∧
        (chatHandler env uid message).status = 200 ∧
        (chatHandler env uid message).body = ChatRespBody.reply (ChatReply.text
          (match fm.content with | some c => c | none => []))) ∧
      (chatHandler env uid message).completionsCalls ≤ 2 := by
  obtain ⟨s, rfl, hs⟩ := hm
  intro fm hf
  have hcond : (jsTrim s == ([] : Str)) = false := by
    simp [hs]
  refine ⟨?_, ?_, ?_⟩
  · intro tcs htcs
    refine ⟨?_, ?_, ?_⟩
    · simp [chatHandler, hu, hcond, hf, htcs]
      cases henv : env.secondResp <;> simp
    · simp [chatHandler, hu, hcond, hf, htcs]
      cases henv : env.secondResp <;> simp [execToolCall]
    · intro sm hsm
      constructor
      · simp [chatHandler, hu, hcond, hf, htcs, hsm]
      · intro c hc hcne
        simp [chatHandler, hu, hcond, hf, htcs, hsm, hc, hcne]
  · intro htcs
    refine ⟨?_, ?_, ?_⟩ <;> simp [chatHandler, hu, hcond, hf, htcs]
  · simp only [chatHandler, hu, hcond, hf]
    simp only [Bool.true_eq_false, if_false, if_neg]
    cases fm.tool_calls with
    | none => simp
    | some tcs => cases env.secondResp <;> simp

/-- C1 witness: the theorem applied to a concrete request with one find_jobs
tool call and a failing jsearch fetch. -/
theorem chat_tool_orchestration_two_step_witness :
    (ChatEnv.mk none
        (some ⟨none, some [⟨"id1".toList, "find_jobs".toList, [] ⟩]⟩)
        (some ⟨some "done".toList, none⟩)
        ⟨true, fun _ => .error (), ⟨fun _ => .missing, true⟩⟩
        (fun _ => none)).firstResp =
      some ⟨none, some [⟨"id1".toList, "find_jobs".toList, [] ⟩]⟩ ∧
    truthy (vStr "u".toList) = true ∧
    (chatHandler
        (ChatEnv.mk none
          (some ⟨none, some [⟨"id1".toList, "find_jobs".toList, [] ⟩]⟩)
          (some ⟨some "done".toList, none⟩)
          ⟨true, fun _ => .error (), ⟨fun _ => .missing, true⟩⟩
          (fun _ => none))
        (vStr "u".toList) (vStr "hi".toList)).completionsCalls = 2 := by
  refine ⟨rfl, by decide, ?_⟩
  exact ((chat_tool_orchestration_two_step _ (vStr "u".toList) (vStr "hi".toList)
    (by decide) ⟨"hi".toList, rfl, by decide⟩ _ rfl).1 _ rfl).1

/-- C3 counterexample: a first response with two find_jobs tool calls makes
the corrected /chat handler execute two local wrapper functions in one
request, refuting that at most one tool call is executed per request. -/
theorem chat_executes_two_local_calls :
    (chatHandler
        (ChatEnv.mk none
          (some ⟨none, some [⟨"a".toList, "find_jobs".toList, []⟩,
                             ⟨"b".toList, "find_jobs".toList, []⟩]⟩)
          (some ⟨some "done".toList, none⟩)
          ⟨true, fun _ => .error (), ⟨fun _ => .missing, true⟩⟩
          (fun _ => none))
        (vStr "u".toList) (vStr "hi".toList)).localCalls.length = 2 := rfl

/-- C3 amended: the corrected /chat handler executes exactly one local
wrapper function per find_jobs/get_user_info entry of the tool_calls array
of the first response — so at most one local call per requested tool call,
but possibly several per request — all before the single second completions
call. -/
theorem chat_one_local_call_per_tool_call (env : ChatEnv) (uid message : JsVal)
    (hu : truthy uid = true)
    (hm : ∃ s, message = vStr s ∧ jsTrim s ≠ []) :
    ∀ fm, env.firstResp = some fm → ∀ tcs, fm.tool_calls = some tcs →
      (chatHandler env uid message).localCalls =
        tcs.filterMap (fun tc =>
          if tc.fname = "find_jobs".toList || tc.fname = "get_user_info".toList then
            some tc.fname
          else none) ∧
      (chatHandler env uid message).localCalls.length ≤ tcs.length ∧
      (chatHandler env uid message).completionsCalls = 2 := by
  obtain ⟨s, rfl, hs⟩ := hm
  intro fm hf tcs htcs
  have hcond : (jsTrim s == ([] : Str)) = false := by simp [hs]
  refine ⟨?_, ?_, ?_⟩
  · cases henv : env.secondResp <;> simp [chatHandler, hu, hcond, hf, htcs, henv]
  · cases henv : env.secondResp <;>
      simp [chatHandler, hu, hcond, hf, htcs, henv, List.length_filterMap_le]
  · cases henv : env.secondResp <;> simp [chatHandler, hu, hcond, hf, htcs, henv]

/-- C3 amended witness: the amended theorem applied to the two-tool-call
request, where the two local calls match the two requested tool calls. -/
theorem chat_one_local_call_per_tool_call_witness :
    truthy (vStr "u".toList) = true ∧
    (chatHandler
        (ChatEnv.mk none
          (some ⟨none, some [⟨"a".toList, "find_jobs".toList, []⟩,
                             ⟨"b".toList, "nobody".toList, []⟩]⟩)
          (some ⟨some "done".toList, none⟩)
          ⟨true, fun _ => .error (), ⟨fun _ => .missing, true⟩⟩
          (fun _ => none))
        (vStr "u".toList) (vStr "hi".toList)).localCalls.length ≤ 2 := by
  refine ⟨by decide, ?_⟩
  exact (chat_one_local_call_per_tool_call
    (ChatEnv.mk none
      (some ⟨none, some [⟨"a".toList, "find_jobs".toList, []⟩,
                         ⟨"b".toList, "nobody".toList, []⟩]⟩)
      (some ⟨some "done".toList, none⟩)
      ⟨true, fun _ => .error (), ⟨fun _ => .missing, true⟩⟩
      (fun _ => none))
    (vStr "u".toList) (vStr "hi".toList)
    (by decide) ⟨"hi".toList, rfl, by decide⟩
    ⟨none, some [⟨"a".toList, "find_jobs".toList, []⟩,
                 ⟨"b".toList, "nobody".toList, []⟩]⟩ rfl
    [⟨"a".toList, "find_jobs".toList, []⟩, ⟨"b".toList, "nobody".toList, []⟩] rfl).2.1

/-- C6: getCompanyLogo is a single best-effort key-value memo: a truthy
jsearch logo is returned unchanged with no cache operation; otherwise a name
whose normalised key is cached yields the stored URL; on a cache miss the
guessed URL img.logo.dev/<key>.com is returned and the background write
outcome never changes the returned value; an empty or fully-normalised-away
name yields null. -/
theorem getCompanyLogo_memo_contract (env : LogoEnv) (name : Str) (lv : JsVal) :
    (truthy lv = true → getCompanyLogo env (vStr name) lv = .ok (lv, [])) ∧
    (truthy lv = false →
      (jsTrim name = [] → getCompanyLogo env (vStr name) lv = .ok (vNull, [])) ∧
      (companyKeyOf name = [] → getCompanyLogo env (vStr name) lv = .ok (vNull, [])) ∧
      (jsTrim name ≠ [] → companyKeyOf name ≠ [] →
        (∀ url, env.cacheRead (companyKeyOf name) = .found url →
          getCompanyLogo env (vStr name) lv =
            .ok (vStr url, [LogoOp.read (companyKeyOf name)])) ∧
        (env.cacheRead (companyKeyOf name) = .missing →
          getCompanyLogo env (vStr name) lv =
            .ok (vStr (guessedLogoUrl (companyKeyOf name)),
              [LogoOp.read (companyKeyOf name),
               LogoOp.write (companyKeyOf name)
                 (guessedLogoUrl (companyKeyOf name)) env.writeOk]) ∧
          ∀ w₁ w₂ : Bool,
            (getCompanyLogo ⟨env.cacheRead, w₁⟩ (vStr name) lv).map Prod.fst =
              (getCompanyLogo ⟨env.cacheRead, w₂⟩ (vStr name) lv).map Prod.fst))) := by
  constructor
  · intro hl
    unfold getCompanyLogo
    rw [hl]
    rfl
  · intro hl
    refine ⟨?_, ?_, ?_⟩
    · intro htrim
      unfold getCompanyLogo
      rw [hl]
      by_cases hn : name = []
      · subst hn
        rfl
      · simp [truthy, hn, htrim]
        rfl
    · intro hkey
      unfold getCompanyLogo
      rw [hl]
      by_cases hn : name = []
      · subst hn
        rfl
      · by_cases htrim : jsTrim name = []
        · simp [truthy, hn, htrim]
          rfl
        · simp [truthy, hn, htrim, hkey]
          rfl
    · intro htrim hkey
      have hn : name ≠ [] := fun h => htrim (by simp [h, jsTrim])
      refine ⟨?_, ?_⟩
      · intro url hurl
        unfold getCompanyLogo
        rw [hl]
        simp [truthy, hn, htrim, hkey, hurl]
        rfl
      · intro hmiss
        constructor
        · unfold getCompanyLogo
          rw [hl]
          simp [truthy, hn, htrim, hkey, hmiss]
          rfl
        · intro w₁ w₂
          unfold getCompanyLogo
          rw [hl]
          simp [truthy, hn, htrim, hkey, hmiss]
          rfl

/-- C6 witness: the contract applied to the name Google Inc with an empty
cache, where the guessed URL is returned whatever the write outcome. -/
theorem getCompanyLogo_memo_contract_witness :
    truthy vNull = false ∧ jsTrim "Google Inc".toList ≠ [] ∧
    companyKeyOf "Google Inc".toList ≠ [] ∧
    getCompanyLogo ⟨fun _ => CacheRead.missing, true⟩ (vStr "Google Inc".toList) vNull =
      .ok (vStr "https://img.logo.dev/google.com".toList,
        [LogoOp.read "google".toList,
         LogoOp.write "google".toList "https://img.logo.dev/google.com".toList true]) := by
  refine ⟨by decide, by decide, by decide, ?_⟩
  have h := (((getCompanyLogo_memo_contract ⟨fun _ => CacheRead.missing, true⟩
    "Google Inc".toList vNull).2 (by decide)).2.2 (by decide) (by decide)).2 rfl
  exact h.1

/-- C7: a POST to /users/:uid/saved-jobs whose body carries a non-empty
string job_id stores the request body verbatim under that job_id (every
other document untouched) and answers 201, assuming the Firestore write
succeeds; a body without job_id answers 400 and leaves the store unchanged. -/
theorem saved_jobs_post_contract (store : Str → Option JsVal) (body : JsVal) :
    (∀ s, getPropOpt body "job_id".toList = vStr s → s ≠ [] →
      (savedJobsPost true store body).1 = (201, SavedBody.message "Job saved.".toList) ∧
      (savedJobsPost true store body).2 s = some body ∧
      ∀ k, k ≠ s → (savedJobsPost true store body).2 k = store k) ∧
    (getPropOpt body "job_id".toList = vUndef →
      ∀ w, (savedJobsPost w store body).1 = (400, SavedBody.errorBody "Job ID missing.".toList) ∧
        ∀ k, (savedJobsPost w store body).2 k = store k) := by
  constructor
  · intro s hs hne
    refine ⟨?_, ?_, ?_⟩
    · simp only [savedJobsPost]
      rw [hs]
      simp [truthy, hne]
    · simp only [savedJobsPost]
      rw [hs]
      simp [truthy, hne]
    · intro k hk
      simp only [savedJobsPost]
      rw [hs]
      simp [truthy, hne, hk]
  · intro hs w
    constructor
    · simp only [savedJobsPost]
      rw [hs]
      simp [truthy]
    · intro k
      simp only [savedJobsPost]
      rw [hs]
      simp [truthy]

/-- C7 witness: the contract applied to a concrete body with job_id j1 over
the empty store. -/
theorem saved_jobs_post_contract_witness :
    getPropOpt (vObj [("job_id".toList, vStr "j1".toList), ("x".toList, vNum 3)])
        "job_id".toList = vStr "j1".toList ∧
    (savedJobsPost true (fun _ => none)
        (vObj [("job_id".toList, vStr "j1".toList), ("x".toList, vNum 3)])).2 "j1".toList =
      some (vObj [("job_id".toList, vStr "j1".toList), ("x".toList, vNum 3)]) := by
  refine ⟨rfl, ?_⟩
  exact ((saved_jobs_post_contract (fun _ => none)
    (vObj [("job_id".toList, vStr "j1".toList), ("x".toList, vNum 3)])).1
    "j1".toList rfl (by decide)).2.1

/-- C9: increment-stat answers 400 without touching Firestore when uid or
statName is missing or statName is not one of the five allowed names; for an
allowed name it increments exactly that field by one leaving every other
field unchanged, and creates a missing document with the incremented field
at 1 and the other allowed fields at 0. -/
theorem increment_stat_contract (env : StatsEnv) (uid statName : JsVal) :
    ((truthy uid = false ∨ truthy statName = false) →
      (incrementStat env uid statName).1.1 = 400 ∧
      (incrementStat env uid statName).2 = env.doc) ∧
    (∀ sn, statName = vStr sn → allowedStats.contains sn = false →
      (incrementStat env uid statName).1.1 = 400 ∧
      (incrementStat env uid statName).2 = env.doc) ∧
    (∀ u sn, uid = vStr u → u ≠ [] → statName = vStr sn → allowedStats.contains sn = true →
      (∀ d, env.doc = some d → env.updateFails = false →
        (incrementStat env uid statName).1.1 = 200 ∧
        ∃ d₂, (incrementStat env uid statName).2 = some d₂ ∧
          d₂ sn = some ((d sn).getD 0 + 1) ∧ ∀ f, f ≠ sn → d₂ f = d f) ∧
      (env.doc = none → env.createFails = false →
        (incrementStat env uid statName).1.1 = 200 ∧
        ∃ d₂, (incrementStat env uid statName).2 = some d₂ ∧
          d₂ sn = some 1 ∧
          (∀ f, allowedStats.contains f = true → f ≠ sn → d₂ f = some 0) ∧
          (∀ f, allowedStats.contains f = false → d₂ f = none))) := by
  have contains_ne_nil : ∀ sn : Str, sn ∈ allowedStats → sn ≠ [] := by
    intro sn h hnil
    subst hnil
    simp [allowedStats] at h
  refine ⟨?_, ?_, ?_⟩
  · rintro (h | h) <;> simp [incrementStat, h]
  · intro sn hsn hall
    subst hsn
    have hmem : sn ∉ allowedStats := by simpa using hall
    by_cases hu : truthy uid = false
    · simp [incrementStat, hu]
    · by_cases hne : sn = []
      · subst hne
        simp [incrementStat, truthy]
      · have ht : truthy (vStr sn) = true := by simp [truthy, hne]
        simp [incrementStat, hu, ht, hmem]
  · intro u sn hu hune hsn hall
    subst hu
    subst hsn
    have hmem : sn ∈ allowedStats := by simpa using hall
    have htu : truthy (vStr u) = true := by simp [truthy, hune]
    have hts : truthy (vStr sn) = true := by simp [truthy, contains_ne_nil sn hmem]
    constructor
    · intro d hd hupd
      constructor
      · simp [incrementStat, htu, hts, hmem, hd, hupd]
      · refine ⟨incrementField d sn, ?_, ?_, ?_⟩
        · simp [incrementStat, htu, hts, hmem, hd, hupd]
        · simp [incrementField]
        · intro f hf
          simp [incrementField, hf]
    · intro hd hcre
      constructor
      · simp [incrementStat, htu, hts, hmem, hd, hcre]
      · refine ⟨defaultStatsDoc sn, ?_, ?_, ?_, ?_⟩
        · simp [incrementStat, htu, hts, hmem, hd, hcre]
        · simp [defaultStatsDoc]
        · intro f hcf hf
          have hfm : f ∈ allowedStats := by simpa using hcf
          simp [defaultStatsDoc, hf, hfm]
        · intro f hcf
          have hfm : f ∉ allowedStats := by simpa using hcf
          have hf : f ≠ sn := fun h => hfm (h ▸ hmem)
          simp [defaultStatsDoc, hf, hfm]

/-- C9 witness: the contract applied to a missing document and the stat
hrAnswersCompleted, which is created at 1 with the other four at 0. -/
theorem increment_stat_contract_witness :
    allowedStats.contains "hrAnswersCompleted".toList = true ∧
    (incrementStat ⟨none, false, false⟩ (vStr "u".toList)
        (vStr "hrAnswersCompleted".toList)).1.1 = 200 := by
  refine ⟨by decide, ?_⟩
  exact (((increment_stat_contract ⟨none, false, false⟩ (vStr "u".toList)
    (vStr "hrAnswersCompleted".toList)).2.2 "u".toList "hrAnswersCompleted".toList
    rfl (by decide) rfl (by decide)).2 rfl rfl).1

/-- C2 counterexample: when the completions call of
/counseling/get-specializations fails, the handler catches the error and
answers status 200 with an empty specializations array — not 500 with a
generic error body. -/
theorem get_specializations_fails_with_200 :
    getSpecializations ⟨Except.error (), fun _ => Except.error ()⟩ (some "MBA".toList) =
      (200, SpecBody.specializations (vArr [])) ∧ (200 : Nat) ≠ 500 :=
  ⟨rfl, by decide⟩

/-- C2 amended: the log-and-500 pattern holds for most handlers (the chat
endpoint, the degree list, saving a job, incrementing a stat) but is not
uniform: /counseling/get-specializations answers 200 with an empty
specializations list when its external call fails, and /jobs answers 200
with an empty list when the job-search call fails, because findJobs swallows
its own errors. -/
theorem error_status_pattern_amended :
    (∀ env : CounselEnv, env.resp = Except.error () → ∀ d, d ≠ [] →
      getSpecializations env (some d) = (200, SpecBody.specializations (vArr []))) ∧
    (∀ env : CounselEnv, env.resp = Except.error () →
      getDegrees env = (500, DegreesBody.errorBody "Failed to fetch degree list.".toList)) ∧
    (∀ (fenv : FindJobsEnv) (prefs : Option JsVal) (uid q : Option Str),
      (∀ qs, fenv.fetchResult qs = Except.error ()) →
      jobsHandler fenv prefs uid q = (200, [])) ∧
    (∀ (env : ChatEnv) (uid message : JsVal), truthy uid = true →
      (∃ s, message = vStr s ∧ jsTrim s ≠ []) → env.firstResp = none →
      (chatHandler env uid message).status = 500) ∧
    (∀ (store : Str → Option JsVal) (body : JsVal) (s : Str),
      getPropOpt body "job_id".toList = vStr s → s ≠ [] →
      (savedJobsPost false store body).1 =
        (500, SavedBody.errorBody "Could not save job.".toList)) ∧
    (∀ (env : StatsEnv) (u sn : Str) (d : Str → Option Int), env.doc = some d →
      env.updateFails = true → sn ∈ allowedStats → u ≠ [] →
      (incrementStat env (vStr u) (vStr sn)).1.1 = 500) := by
  refine ⟨?_, ?_, ?_, ?_, ?_, ?_⟩
  · intro env hresp d hd
    simp [getSpecializations, hd, counselTry, hresp]
  · intro env hresp
    simp [getDegrees, counselTry, hresp]
  · intro fenv prefs uid q hfetch
    unfold jobsHandler
    refine Prod.ext rfl ?_
    show findJobs fenv _ = []
    unfold findJobs
    by_cases hkey : fenv.apiKeyPresent = false
    · simp [hkey]
    · simp only [hkey, if_false, Bool.false_eq_true]
      set qs := jobsQueryOf prefs uid q with hq
      by_cases hqs : qs = []
      · simp [findJobsBody, getPropOpt, lookupField, jsOr, truthy, hqs]
        rfl
      · by_cases htrim : jsTrim qs = []
        · simp [findJobsBody, getPropOpt, lookupField, jsOr, truthy, hqs, htrim]
          rfl
        · simp [findJobsBody, getPropOpt, lookupField, jsOr, truthy, hqs, htrim, hfetch qs]
  · intro env uid message hu hm hf
    obtain ⟨s, rfl, hs⟩ := hm
    have hcond : (jsTrim s == ([] : Str)) = false := by simp [hs]
    simp [chatHandler, hu, hcond, hf]
  · intro store body s hs hne
    simp only [savedJobsPost]
    rw [hs]
    simp [truthy, hne]
  · intro env u sn d hd hupd hmem hu
    have htu : truthy (vStr u) = true := by simp [truthy, hu]
    have hsn : sn ≠ [] := by
      intro hnil
      subst hnil
      simp [allowedStats] at hmem
    have hts : truthy (vStr sn) = true := by simp [truthy, hsn]
    simp [incrementStat, htu, hts, hmem, hd, hupd]

/-- C2 amended witness: the amended pattern applied to concrete failing
environments for the two counseling endpoints. -/
theorem error_status_pattern_amended_witness :
    (⟨Except.error (), fun _ => Except.error ()⟩ : CounselEnv).resp = Except.error () ∧
    getSpecializations ⟨Except.error (), fun _ => Except.error ()⟩ (some "MS".toList) =
      (200, SpecBody.specializations (vArr [])) ∧
    getDegrees ⟨Except.error (), fun _ => Except.error ()⟩ =
      (500, DegreesBody.errorBody "Failed to fetch degree list.".toList) := by
  refine ⟨rfl, ?_, ?_⟩
  · exact error_status_pattern_amended.1 ⟨Except.error (), fun _ => Except.error ()⟩ rfl
      "MS".toList (by decide)
  · exact error_status_pattern_amended.2.1 ⟨Except.error (), fun _ => Except.error ()⟩ rfl

theorem setKey_hasKey (m : List (Str × Str)) (k' v k : Str) :
    (setKey m k' v).any (fun pr => pr.1 = k) =
      (m.any (fun pr => pr.1 = k) || (k' == k)) := by
  unfold setKey
  by_cases hm : m.any (fun p => p.1 = k') = true
  · simp only [hm, if_true, List.any_map]
    by_cases hk : k' = k
    · subst hk
      simp only [beq_self_eq_true, Bool.or_true]
      rw [← hm]
      congr 1
      funext p
      by_cases hp : p.1 = k'
      · simp [Function.comp, hp]
      · simp [Function.comp, hp]
    · have : (k' == k) = false := by simp [hk]
      simp only [this, Bool.or_false]
      congr 1
      funext p
      by_cases hp : p.1 = k'
      · simp [Function.comp, hp, hk]
      · simp [Function.comp, hp]
  · simp only [hm, if_false, Bool.false_eq_true, List.any_append]
    by_cases hk : k' = k <;> simp [hk]

theorem resourceLoop_hasKey (env : SkillsEnv) :
    ∀ (l : List Str) (acc : List (Str × Str)) (k : Str),
      (resourceLoop env l acc).any (fun pr => pr.1 = k) =
        (acc.any (fun pr => pr.1 = k) || l.any (fun sk => (sk == k) && resourceKept env sk)) := by
  intro l
  induction l with
  | nil => intro acc k; simp [resourceLoop]
  | cons skill rest ih =>
    intro acc k
    unfold resourceLoop
    cases hstep : resourceStep env skill with
    | ok o =>
      cases o with
      | some url =>
        have hkept : resourceKept env skill = true := by simp [resourceKept, hstep]
        simp only [ih, setKey_hasKey, hkept, List.any_cons, Bool.and_true]
        cases acc.any (fun pr => pr.1 = k) <;> cases (skill == k) <;> simp
      | none =>
        have hkept : resourceKept env skill = false := by simp [resourceKept, hstep]
        simp [ih, hkept, List.any_cons]
    | error e =>
      have hkept : resourceKept env skill = false := by simp [resourceKept, hstep]
      simp [ih, hkept, List.any_cons]

theorem jobsHandler_errors_200_empty (fenv : FindJobsEnv) (prefs : Option JsVal)
    (uid q : Option Str) (hfetch : ∀ qs, fenv.fetchResult qs = Except.error ()) :
    jobsHandler fenv prefs uid q = (200, []) := by
  unfold jobsHandler
  refine Prod.ext rfl ?_
  show findJobs fenv _ = []
  unfold findJobs
  by_cases hkey : fenv.apiKeyPresent = false
  · simp [hkey]
  · simp only [hkey, if_false, Bool.false_eq_true]
    set qs := jobsQueryOf prefs uid q with hq
    by_cases hqs : qs = []
    · simp [findJobsBody, getPropOpt, lookupField, jsOr, truthy, hqs]
      rfl
    · by_cases htrim : jsTrim qs = []
      · simp [findJobsBody, getPropOpt, lookupField, jsOr, truthy, hqs, htrim]
        rfl
      · simp [findJobsBody, getPropOpt, lookupField, jsOr, truthy, hqs, htrim, hfetch qs]

/-- C4 counterexample: a /skills/analyze request with two missing skills
where the resource call for go fails but the one for python succeeds still
answers 200, with a learning-resources map assembled from the successful
subset only — refuting that any failed external call fails the whole
request. -/
theorem skills_partial_resource_recovery_200 :
    skillsAnalyze
        ⟨some (vObj [("jobRole".toList, vStr "dev".toList), ("skills".toList, vStr "java".toList)]),
         Except.ok (vObj [("choices".toList, vArr [vObj [("message".toList,
           vObj [("content".toList, vStr "java, python, go".toList)])]])]),
         fun sk => if sk = "python".toList then
           Except.ok (vObj [("choices".toList, vArr [vObj [("message".toList,
             vObj [("content".toList, vStr " udemy.com/py ".toList)])]])])
         else Except.error ()⟩
        (some "u".toList) =
      (200, SkillsBody.result (vStr "dev".toList)
        ["java".toList, "python".toList, "go".toList]
        ["python".toList, "go".toList]
        [("python".toList, "https://udemy.com/py".toList)]) ∧
    (200 : Nat) ≠ 500 :=
  ⟨rfl, by decide⟩

/-- C4 amended: not every failed external call fails the whole request: the
/skills/analyze learning-resources loop skips each failed per-skill resource
call and still answers 200, its map holding exactly the missing skills whose
resource call succeeded with a usable URL; and findJobs swallows job-search
failures, so /jobs answers 200 with an empty list. -/
theorem partial_failure_amended :
    (∀ (env : SkillsEnv) (uid : Str) (p : JsVal) (sstr : Str) (sdata : JsVal) (txt : Str),
      uid ≠ [] → env.prefs = some p →
      truthy (getPropOpt p "jobRole".toList) = true →
      jsOr (getPropOpt p "skills".toList) (vStr []) = vStr sstr →
      env.skillsResp = Except.ok sdata →
      jsOr (chainContent sdata) (vStr []) = vStr txt →
      (skillsAnalyze env (some uid)).1 = 200 ∧
      ∃ jr req missing resources,
        (skillsAnalyze env (some uid)).2 = SkillsBody.result jr req missing resources ∧
        ∀ k, resources.any (fun pr => pr.1 = k) =
          missing.any (fun sk => (sk == k) && resourceKept env sk)) ∧
    (∀ (fenv : FindJobsEnv) (prefs : Option JsVal) (uid q : Option Str),
      (∀ qs, fenv.fetchResult qs = Except.error ()) →
      jobsHandler fenv prefs uid q = (200, [])) := by
  constructor
  · intro env uid p sstr sdata txt huid hp hrole hskills hresp hcontent
    have hbody : skillsAnalyze env (some uid) =
        (200, SkillsBody.result (getPropOpt p "jobRole".toList)
          (((splitComma txt).map (fun s => toLowerStr (jsTrim s))).filter (fun x => x ≠ []))
          ((((splitComma txt).map (fun s => toLowerStr (jsTrim s))).filter (fun x => x ≠ [])).filter
            (fun s => s ∉ ((splitComma (toLowerStr sstr)).map jsTrim).filter (fun x => x ≠ [])))
          (resourceLoop env
            ((((splitComma txt).map (fun s => toLowerStr (jsTrim s))).filter (fun x => x ≠ [])).filter
              (fun s => s ∉ ((splitComma (toLowerStr sstr)).map jsTrim).filter (fun x => x ≠ [])))
            [])) := by
      unfold skillsAnalyze
      rw [if_neg (by simpa using huid)]
      unfold skillsTry
      rw [hp]
      simp only [hrole, hskills, hresp, hcontent]
      rfl
    constructor
    · rw [hbody]
    · rw [hbody]
      refine ⟨_, _, _, _, rfl, ?_⟩
      intro k
      rw [resourceLoop_hasKey]
      simp
  · exact jobsHandler_errors_200_empty

/-- C4 amended witness: the amended statement applied to the concrete
environment of the counterexample, where the map holds python but not go. -/
theorem partial_failure_amended_witness :
    jsOr (getPropOpt (vObj [("jobRole".toList, vStr "dev".toList), ("skills".toList, vStr "java".toList)])
        "skills".toList) (vStr []) = vStr "java".toList ∧
    (skillsAnalyze
        ⟨some (vObj [("jobRole".toList, vStr "dev".toList), ("skills".toList, vStr "java".toList)]),
         Except.ok (vObj [("choices".toList, vArr [vObj [("message".toList,
           vObj [("content".toList, vStr "java, python, go".toList)])]])]),
         fun sk => if sk = "python".toList then
           Except.ok (vObj [("choices".toList, vArr [vObj [("message".toList,
             vObj [("content".toList, vStr " udemy.com/py ".toList)])]])])
         else Except.error ()⟩
        (some "u".toList)).1 = 200 := by
  refine ⟨rfl, ?_⟩
  exact (partial_failure_amended.1
    ⟨some (vObj [("jobRole".toList, vStr "dev".toList), ("skills".toList, vStr "java".toList)]),
     Except.ok (vObj [("choices".toList, vArr [vObj [("message".toList,
       vObj [("content".toList, vStr "java, python, go".toList)])]])]),
     fun sk => if sk = "python".toList then
       Except.ok (vObj [("choices".toList, vArr [vObj [("message".toList,
         vObj [("content".toList, vStr " udemy.com/py ".toList)])]])])
     else Except.error ()⟩
    "u".toList
    (vObj [("jobRole".toList, vStr "dev".toList), ("skills".toList, vStr "java".toList)])
    "java".toList
    (vObj [("choices".toList, vArr [vObj [("message".toList,
      vObj [("content".toList, vStr "java, python, go".toList)])]])])
    "java, python, go".toList
    (by decide) rfl (by decide) rfl rfl rfl).1

/-- C5 counterexample: the formatting utilities are not total on
arbitrarily-shaped job objects — a truthy non-string in the fields whose
string methods they call makes each of them throw a TypeError instead of
returning a default. -/
theorem formatters_throw_on_nonstring_fields :
    getJobType (vObj [("job_employment_type".toList, vNum 5)]) = .error JsError.typeError ∧
    formatSalary (vObj [("job_min_salary".toList, vNum 1),
      ("job_salary_period".toList, vNum 5)]) = .error JsError.typeError ∧
    getExperience (vObj [("job_description".toList, vNum 7)]) = .error JsError.typeError :=
  ⟨rfl, rfl, rfl⟩

mutual
theorem jsToLocaleString_ok (v : JsVal) (h1 : v ≠ vNull) (h2 : v ≠ vUndef) :
    ∃ s, jsToLocaleString v = .ok s :=
  match v with
  | vBool true => ⟨_, rfl⟩
  | vBool false => ⟨_, rfl⟩
  | vNum _ => ⟨_, rfl⟩
  | vStr _ => ⟨_, rfl⟩
  | vObj _ => ⟨_, rfl⟩
  | vNull => absurd rfl h1
  | vUndef => absurd rfl h2
  | vArr xs =>
    match jsToLocaleElems_ok xs with
    | ⟨rs, hrs⟩ =>
      ⟨joinSep [','] rs, by
        show Except.map (joinSep [',']) (jsToLocaleElems xs) = _
        rw [hrs]
        rfl⟩

theorem jsToLocaleElems_ok (xs : List JsVal) : ∃ rs, jsToLocaleElems xs = .ok rs :=
  match xs with
  | [] => ⟨[], rfl⟩
  | vNull :: vs =>
    match jsToLocaleElems_ok vs with
    | ⟨rs, hrs⟩ => ⟨[] :: rs, by
        show Except.map (fun r => [] :: r) (jsToLocaleElems vs) = _
        rw [hrs]
        rfl⟩
  | vUndef :: vs =>
    match jsToLocaleElems_ok vs with
    | ⟨rs, hrs⟩ => ⟨[] :: rs, by
        show Except.map (fun r => [] :: r) (jsToLocaleElems vs) = _
        rw [hrs]
        rfl⟩
  | vBool true :: vs =>
    match jsToLocaleElems_ok vs with
    | ⟨rs, hrs⟩ => ⟨"true".toList :: rs, by
        simp only [jsToLocaleElems, jsToLocaleString]
        rw [hrs]
        rfl⟩
  | vBool false :: vs =>
    match jsToLocaleElems_ok vs with
    | ⟨rs, hrs⟩ => ⟨"false".toList :: rs, by
        simp only [jsToLocaleElems, jsToLocaleString]
        rw [hrs]
        rfl⟩
  | vNum n :: vs =>
    match jsToLocaleElems_ok vs with
    | ⟨rs, hrs⟩ => ⟨numToLocaleString n :: rs, by
        simp only [jsToLocaleElems, jsToLocaleString]
        rw [hrs]
        rfl⟩
  | vStr s :: vs =>
    match jsToLocaleElems_ok vs with
    | ⟨rs, hrs⟩ => ⟨s :: rs, by
        simp only [jsToLocaleElems, jsToLocaleString]
        rw [hrs]
        rfl⟩
  | vObj fs :: vs =>
    match jsToLocaleElems_ok vs with
    | ⟨rs, hrs⟩ => ⟨"[object Object]".toList :: rs, by
        simp only [jsToLocaleElems, jsToLocaleString]
        rw [hrs]
        rfl⟩
  | vArr ys :: vs =>
    match jsToLocaleElems_ok vs, jsToLocaleString_ok (vArr ys) (by simp) (by simp) with
    | ⟨rs, hrs⟩, ⟨s, hs⟩ => ⟨s :: rs, by
        simp only [jsToLocaleElems]
        rw [hs, hrs]
        rfl⟩
end

theorem jsToLocaleString_ok_of_truthy (v : JsVal) (h : truthy v = true) :
    ∃ s, jsToLocaleString v = .ok s := by
  apply jsToLocaleString_ok <;> intro hv <;> subst hv <;> simp [truthy] at h

/-- C5 amended: the formatting utilities are total and default-returning as
long as the optionally-present fields whose string methods they call
(job_salary_period, job_employment_type, job_description) hold strings
whenever they are truthy: under that typing they never throw, return the
fixed defaults on every missing-data path, and cleanJobDescription is total
on every input with its fixed default for falsy or non-string input. -/
theorem formatters_total_on_typed_fields :
    (∀ job : JsVal,
      (truthy job = false → formatSalary job = .ok notDisclosed) ∧
      ((truthy (getPropOpt job "job_salary_period".toList) = true →
          ∃ ps, getPropOpt job "job_salary_period".toList = vStr ps) →
        ∃ s, formatSalary job = .ok s) ∧
      (truthy job = true →
        truthy (getPropOpt job "job_min_salary".toList) = false →
        truthy (getPropOpt job "job_max_salary".toList) = false →
        (truthy (getPropOpt job "job_salary_period".toList) = true →
          ∃ ps, getPropOpt job "job_salary_period".toList = vStr ps) →
        formatSalary job = .ok notDisclosed)) ∧
    (∀ job : JsVal,
      (truthy job = false → getJobType job = .ok "N/A".toList) ∧
      ((truthy (getPropOpt job "job_employment_type".toList) = true →
          ∃ es, getPropOpt job "job_employment_type".toList = vStr es) →
        ∃ s, getJobType job = .ok s) ∧
      (truthy job = true →
        truthy (getPropOpt job "job_is_remote".toList) = false →
        truthy (getPropOpt job "job_employment_type".toList) = false →
        getJobType job = .ok "On-site".toList)) ∧
    (∀ job : JsVal,
      (truthy job = false → getExperience job = .ok notDisclosed) ∧
      ((truthy (getPropOpt job "job_description".toList) = true →
          ∃ ds, getPropOpt job "job_description".toList = vStr ds) →
        ∃ s, getExperience job = .ok s) ∧
      (truthy job = true →
        truthy (getPropOpt job "job_required_experience".toList) = false →
        truthy (getPropOpt job "job_description".toList) = false →
        getExperience job = .ok notDisclosed)) ∧
    (∀ v : JsVal, (∀ s, v ≠ vStr s) → cleanJobDescription v = noDescription) ∧
    cleanJobDescription (vStr []) = noDescription := by
  refine ⟨?_, ?_, ?_, ?_, rfl⟩
  · intro job
    refine ⟨?_, ?_, ?_⟩
    · intro hj
      unfold formatSalary
      simp only [hj, Bool.true_eq_false, Bool.false_eq_true, eq_self_iff_true, if_true, if_false]
      rfl
    · intro htyped
      unfold formatSalary
      by_cases hj : truthy job = false
      · simp only [hj, Bool.true_eq_false, Bool.false_eq_true, eq_self_iff_true, if_true, if_false]
        exact ⟨_, rfl⟩
      · have hj₂ : truthy job = true := by revert hj; cases truthy job <;> simp
        simp only [hj₂, Bool.true_eq_false, Bool.false_eq_true, eq_self_iff_true, if_true, if_false]
        have core : ∀ pv : Str,
            ∃ s, (do
              let period ← (Except.ok pv : Except JsError Str)
              if truthy (getPropOpt job "job_min_salary".toList) &&
                  truthy (getPropOpt job "job_max_salary".toList) then
                let ms ← jsToLocaleString (getPropOpt job "job_min_salary".toList)
                let xs ← jsToLocaleString (getPropOpt job "job_max_salary".toList)
                pure (jsToString (jsOr (getPropOpt job "job_salary_currency".toList) (vStr [])) ++
                  [' '] ++ ms ++ " - ".toList ++ xs ++ [' '] ++ period)
              else if truthy (getPropOpt job "job_min_salary".toList) then
                let ms ← jsToLocaleString (getPropOpt job "job_min_salary".toList)
                pure (jsToString (jsOr (getPropOpt job "job_salary_currency".toList) (vStr [])) ++
                  [' '] ++ ms ++ [' '] ++ period)
              else if truthy (getPropOpt job "job_max_salary".toList) then
                let xs ← jsToLocaleString (getPropOpt job "job_max_salary".toList)
                pure (jsToString (jsOr (getPropOpt job "job_salary_currency".toList) (vStr [])) ++
                  [' '] ++ xs ++ [' '] ++ period)
              else pure notDisclosed) = Except.ok s := by
          intro pv
          by_cases hmm : (truthy (getPropOpt job "job_min_salary".toList) &&
              truthy (getPropOpt job "job_max_salary".toList)) = true
          · obtain ⟨hmin, hmax⟩ := Bool.and_eq_true_iff.mp hmm
            obtain ⟨ms, hms⟩ := jsToLocaleString_ok_of_truthy _ hmin
            obtain ⟨xs, hxs⟩ := jsToLocaleString_ok_of_truthy _ hmax
            simp only [hmm, hms, hxs, Bool.true_eq_false, Bool.false_eq_true, eq_self_iff_true, if_true, if_false]
            exact ⟨_, rfl⟩
          · simp only [hmm, Bool.true_eq_false, Bool.false_eq_true, eq_self_iff_true, if_true, if_false]
            by_cases hmin : truthy (getPropOpt job "job_min_salary".toList) = true
            · obtain ⟨ms, hms⟩ := jsToLocaleString_ok_of_truthy _ hmin
              simp only [hmin, hms, Bool.true_eq_false, Bool.false_eq_true, eq_self_iff_true, if_true, if_false]
              exact ⟨_, rfl⟩
            · simp only [hmin, Bool.true_eq_false, Bool.false_eq_true, eq_self_iff_true, if_true, if_false]
              by_cases hmax : truthy (getPropOpt job "job_max_salary".toList) = true
              · obtain ⟨xs, hxs⟩ := jsToLocaleString_ok_of_truthy _ hmax
                simp only [hmax, hxs, Bool.true_eq_false, Bool.false_eq_true, eq_self_iff_true, if_true, if_false]
                exact ⟨_, rfl⟩
              · simp only [hmax, Bool.true_eq_false, Bool.false_eq_true, eq_self_iff_true, if_true, if_false]
                exact ⟨_, rfl⟩
        by_cases hper : truthy (getPropOpt job "job_salary_period".toList) = true
        · obtain ⟨ps, hps⟩ := htyped hper
          simp only [hper, Bool.true_eq_false, Bool.false_eq_true, eq_self_iff_true, if_true, if_false]
          simp only [hps]
          exact core _
        · simp only [hper, Bool.true_eq_false, Bool.false_eq_true, eq_self_iff_true, if_true, if_false]
          exact core _
    · intro hj hmin hmax htyped
      unfold formatSalary
      simp only [hj, Bool.true_eq_false, Bool.false_eq_true, eq_self_iff_true, if_true, if_false]
      by_cases hper : truthy (getPropOpt job "job_salary_period".toList) = true
      · obtain ⟨ps, hps⟩ := htyped hper
        simp only [hper, Bool.true_eq_false, Bool.false_eq_true, eq_self_iff_true, if_true, if_false]
        simp only [hps]
        simp only [hmin, hmax, Bool.false_and, Bool.true_eq_false, Bool.false_eq_true, eq_self_iff_true, if_true, if_false]
        rfl
      · simp only [hper, Bool.true_eq_false, Bool.false_eq_true, eq_self_iff_true, if_true, if_false]
        simp only [hmin, hmax, Bool.false_and, Bool.true_eq_false, Bool.false_eq_true, eq_self_iff_true, if_true, if_false]
        rfl
  · intro job
    refine ⟨?_, ?_, ?_⟩
    · intro hj
      unfold getJobType
      simp only [hj, Bool.true_eq_false, Bool.false_eq_true, eq_self_iff_true, if_true, if_false]
      rfl
    · intro htyped
      unfold getJobType
      by_cases hj : truthy job = false
      · simp only [hj, Bool.true_eq_false, Bool.false_eq_true, eq_self_iff_true, if_true, if_false]
        exact ⟨_, rfl⟩
      · have hj₂ : truthy job = true := by revert hj; cases truthy job <;> simp
        simp only [hj₂, Bool.true_eq_false, Bool.false_eq_true, eq_self_iff_true, if_true, if_false]
        by_cases hrem : truthy (getPropOpt job "job_is_remote".toList) = true
        · simp only [hrem, Bool.true_eq_false, Bool.false_eq_true, eq_self_iff_true, if_true, if_false]
          exact ⟨_, rfl⟩
        · simp only [hrem, Bool.true_eq_false, Bool.false_eq_true, eq_self_iff_true, if_true, if_false]
          by_cases hemp : truthy (getPropOpt job "job_employment_type".toList) = true
          · obtain ⟨es, hes⟩ := htyped hemp
            rw [hes] at hemp
            simp only [hes]
            simp only [hemp, Bool.true_eq_false, Bool.false_eq_true, eq_self_iff_true, if_true, if_false]
            exact ⟨_, rfl⟩
          · simp only [hemp, Bool.true_eq_false, Bool.false_eq_true, eq_self_iff_true, if_true, if_false]
            exact ⟨_, rfl⟩
    · intro hj hrem hemp
      unfold getJobType
      simp only [hj, hrem, hemp, Bool.true_eq_false, Bool.false_eq_true, eq_self_iff_true, if_true, if_false]
      rfl
  · intro job
    refine ⟨?_, ?_, ?_⟩
    · intro hj
      unfold getExperience
      simp only [hj, Bool.true_eq_false, Bool.false_eq_true, eq_self_iff_true, if_true, if_false]
    · intro htyped
      unfold getExperience
      by_cases hj : truthy job = false
      · simp only [hj, Bool.true_eq_false, Bool.false_eq_true, eq_self_iff_true, if_true, if_false]
        exact ⟨_, rfl⟩
      · have hj₂ : truthy job = true := by revert hj; cases truthy job <;> simp
        simp only [hj₂, Bool.true_eq_false, Bool.false_eq_true, eq_self_iff_true, if_true, if_false]
        have step2ok : ∃ s, getExperienceStep2 job = Except.ok s := by
          unfold getExperienceStep2
          by_cases hdesc : truthy (getPropOpt job "job_description".toList) = true
          · obtain ⟨ds, hds⟩ := htyped hdesc
            rw [hds] at hdesc
            simp only [hds]
            simp only [hdesc, Bool.true_eq_false, Bool.false_eq_true, eq_self_iff_true, if_true, if_false]
            cases hem : expMatch (toLowerStr ds) with
            | some r =>
              obtain ⟨g1, g3, u⟩ := r
              cases g3 with
              | some g3v =>
                simp only [hem]
                exact ⟨_, rfl⟩
              | none =>
                simp only [hem]
                exact ⟨_, rfl⟩
            | none =>
              simp only [hem]
              by_cases hinc : (containsSub "entry level".toList (toLowerStr ds) ||
                  containsSub "no experience".toList (toLowerStr ds)) = true
              · simp only [hinc, Bool.true_eq_false, Bool.false_eq_true, eq_self_iff_true, if_true, if_false]
                exact ⟨_, rfl⟩
              · simp only [hinc, Bool.true_eq_false, Bool.false_eq_true, eq_self_iff_true, if_true, if_false]
                exact ⟨_, rfl⟩
          · simp only [hdesc, Bool.true_eq_false, Bool.false_eq_true, eq_self_iff_true, if_true, if_false]
            exact ⟨_, rfl⟩
        by_cases hreq : truthy (getPropOpt job "job_required_experience".toList) = true
        · simp only [hreq, Bool.true_eq_false, Bool.false_eq_true, eq_self_iff_true, if_true, if_false]
          by_cases hnoe : truthy (getPropOpt (getPropOpt job "job_required_experience".toList)
              "no_experience_required".toList) = true
          · simp only [hnoe, Bool.true_eq_false, Bool.false_eq_true, eq_self_iff_true, if_true, if_false]
            exact ⟨_, rfl⟩
          · simp only [hnoe, Bool.true_eq_false, Bool.false_eq_true, eq_self_iff_true, if_true, if_false]
            by_cases hmon : truthy (getPropOpt (getPropOpt job "job_required_experience".toList)
                "required_experience_in_months".toList) = true
            · simp only [hmon, Bool.true_eq_false, Bool.false_eq_true, eq_self_iff_true, if_true, if_false]
              exact ⟨_, rfl⟩
            · simp only [hmon, Bool.true_eq_false, Bool.false_eq_true, eq_self_iff_true, if_true, if_false]
              exact step2ok
        · simp only [hreq, Bool.true_eq_false, Bool.false_eq_true, eq_self_iff_true, if_true, if_false]
          exact step2ok
    · intro hj hreq hdesc
      unfold getExperience
      simp only [hj, hreq, Bool.true_eq_false, Bool.false_eq_true, eq_self_iff_true, if_true, if_false]
      unfold getExperienceStep2
      simp only [hdesc, Bool.true_eq_false, Bool.false_eq_true, eq_self_iff_true, if_true, if_false]
  · intro v hv
    cases v with
    | vStr s => exact absurd rfl (hv s)
    | vNull => rfl
    | vUndef => rfl
    | vBool b => rfl
    | vNum n => rfl
    | vArr xs => rfl
    | vObj fs => rfl

/-- C5 amended witness: the typed-totality statement applied to a job with a
string salary period and numeric bounds, and to a falsy job. -/
theorem formatters_total_on_typed_fields_witness :
    (∃ s, formatSalary (vObj [("job_min_salary".toList, vNum 50000),
      ("job_salary_period".toList, vStr "year".toList)]) = .ok s) ∧
    getJobType vNull = .ok "N/A".toList := by
  constructor
  · exact (formatters_total_on_typed_fields.1
      (vObj [("job_min_salary".toList, vNum 50000),
        ("job_salary_period".toList, vStr "year".toList)])).2.1
      (fun _ => ⟨"year".toList, rfl⟩)
  · exact (formatters_total_on_typed_fields.2.1 vNull).1 rfl

/-!
Lemmas about jsTrim, the de-duplication and the two splitters, leading to
the paragraph contract of cleanJobDescription.
-/

theorem dropWhile_head_not_ws :
    ∀ {s : Str} {c : Char}, (s.dropWhile jsWhitespace).head? = some c → jsWhitespace c = false := by
  intro s
  induction s with
  | nil => intro c h; cases h
  | cons a t ih =>
    intro c h
    rw [List.dropWhile_cons] at h
    by_cases ha : jsWhitespace a = true
    · rw [if_pos ha] at h
      exact ih h
    · rw [if_neg ha] at h
      injection h with h₂
      subst h₂
      exact Bool.not_eq_true _ ▸ ha

theorem dropWhile_of_head_not_ws {s : Str}
    (h : ∀ c, s.head? = some c → jsWhitespace c = false) :
    s.dropWhile jsWhitespace = s := by
  cases s with
  | nil => rfl
  | cons a t =>
    rw [List.dropWhile_cons, if_neg]
    rw [h a rfl]
    simp

theorem noWsEdge_head {s : Str} (h : noWsEdge s = true) :
    ∀ c, s.head? = some c → jsWhitespace c = false := by
  intro c hc
  unfold noWsEdge at h
  rw [hc] at h
  obtain ⟨h1, _⟩ := Bool.and_eq_true_iff.mp h
  simpa using h1

theorem noWsEdge_last {s : Str} (h : noWsEdge s = true) :
    ∀ c, s.getLast? = some c → jsWhitespace c = false := by
  intro c hc
  unfold noWsEdge at h
  rw [hc] at h
  obtain ⟨_, h2⟩ := Bool.and_eq_true_iff.mp h
  simpa using h2

theorem noWsEdge_intro {s : Str}
    (h1 : ∀ c, s.head? = some c → jsWhitespace c = false)
    (h2 : ∀ c, s.getLast? = some c → jsWhitespace c = false) :
    noWsEdge s = true := by
  unfold noWsEdge
  refine Bool.and_eq_true_iff.mpr ⟨?_, ?_⟩
  · cases hh : s.head? with
    | none => rfl
    | some c => simpa using h1 c hh
  · cases hh : s.getLast? with
    | none => rfl
    | some c => simpa using h2 c hh

theorem jsTrim_of_noWsEdge {s : Str} (h : noWsEdge s = true) : jsTrim s = s := by
  unfold jsTrim
  rw [dropWhile_of_head_not_ws (noWsEdge_head h)]
  rw [dropWhile_of_head_not_ws (fun c hc => noWsEdge_last h c (by rwa [List.head?_reverse] at hc))]
  exact List.reverse_reverse s

theorem noWsEdge_jsTrim (s : Str) : noWsEdge (jsTrim s) = true := by
  unfold jsTrim
  refine noWsEdge_intro ?_ ?_
  · intro c hc
    rw [List.head?_reverse] at hc
    rcases hv : ((s.dropWhile jsWhitespace).reverse.dropWhile jsWhitespace) with _ | ⟨d, v'⟩
    · rw [hv] at hc
      cases hc
    · have hvne : (s.dropWhile jsWhitespace).reverse.dropWhile jsWhitespace ≠ [] := by
        rw [hv]
        exact List.cons_ne_nil d v'
      obtain ⟨pre, hpre⟩ := List.dropWhile_suffix
        (l := (s.dropWhile jsWhitespace).reverse) (p := jsWhitespace)
      have hlast : ((s.dropWhile jsWhitespace).reverse.dropWhile jsWhitespace).getLast? =
          (s.dropWhile jsWhitespace).reverse.getLast? := by
        conv_rhs => rw [← hpre]
        exact (List.getLast?_append_of_ne_nil pre hvne).symm
      rw [hlast, List.getLast?_reverse] at hc
      exact dropWhile_head_not_ws hc
  · intro c hc
    rw [List.getLast?_reverse] at hc
    exact dropWhile_head_not_ws hc

theorem jsTrim_idem (s : Str) : jsTrim (jsTrim s) = jsTrim s :=
  jsTrim_of_noWsEdge (noWsEdge_jsTrim s)

theorem mem_jsTrim {c : Char} {s : Str} (h : c ∈ jsTrim s) : c ∈ s := by
  unfold jsTrim at h
  rw [List.mem_reverse] at h
  have h₂ := (List.dropWhile_suffix (p := jsWhitespace)).subset h
  rw [List.mem_reverse] at h₂
  exact (List.dropWhile_suffix (p := jsWhitespace)).subset h₂


theorem dedupFirstAux_mem {x : Str} :
    ∀ {l seen : List Str}, x ∈ dedupFirstAux seen l → x ∈ l := by
  intro l
  induction l with
  | nil => intro seen h; cases h
  | cons y ys ih =>
    intro seen h
    unfold dedupFirstAux at h
    by_cases hy : y ∈ seen
    · rw [if_pos hy] at h
      exact List.mem_cons_of_mem _ (ih h)
    · rw [if_neg hy] at h
      rcases List.mem_cons.mp h with h | h
      · exact h ▸ List.mem_cons_self _ _
      · exact List.mem_cons_of_mem _ (ih h)

theorem dedupFirstAux_not_seen {x : Str} :
    ∀ {l seen : List Str}, x ∈ dedupFirstAux seen l → x ∉ seen := by
  intro l
  induction l with
  | nil => intro seen h; cases h
  | cons y ys ih =>
    intro seen h
    unfold dedupFirstAux at h
    by_cases hy : y ∈ seen
    · rw [if_pos hy] at h
      exact ih h
    · rw [if_neg hy] at h
      rcases List.mem_cons.mp h with h | h
      · exact h ▸ hy
      · intro hx
        exact ih h (List.mem_cons_of_mem _ hx)

theorem dedupFirstAux_nodup : ∀ (l seen : List Str), (dedupFirstAux seen l).Nodup := by
  intro l
  induction l with
  | nil => intro seen; exact List.nodup_nil
  | cons y ys ih =>
    intro seen
    unfold dedupFirstAux
    by_cases hy : y ∈ seen
    · rw [if_pos hy]
      exact ih seen
    · rw [if_neg hy]
      refine List.nodup_cons.mpr ⟨?_, ih (y :: seen)⟩
      intro hmem
      exact dedupFirstAux_not_seen hmem (List.mem_cons_self _ _)

theorem dedupFirstAux_eq_self :
    ∀ {l seen : List Str}, l.Nodup → (∀ x ∈ l, x ∉ seen) → dedupFirstAux seen l = l := by
  intro l
  induction l with
  | nil => intro seen _ _; rfl
  | cons y ys ih =>
    intro seen hnd hs
    unfold dedupFirstAux
    rw [if_neg (hs y (List.mem_cons_self _ _))]
    have hng := List.nodup_cons.mp hnd
    congr 1
    refine ih hng.2 ?_
    intro x hx hmem
    rcases List.mem_cons.mp hmem with h | h
    · exact hng.1 (h ▸ hx)
    · exact hs x (List.mem_cons_of_mem _ hx) h

theorem reFlow_no_nl (q : Str) : '\n' ∉ reFlow q := by
  intro h
  unfold reFlow at h
  have h₂ := mem_jsTrim h
  obtain ⟨c, _, hc⟩ := List.mem_map.mp h₂
  by_cases hcn : c = '\n'
  · rw [if_pos hcn] at hc
    cases hc
  · rw [if_neg hcn] at hc
    exact hcn hc

theorem noWsEdge_reFlow (q : Str) : noWsEdge (reFlow q) = true := noWsEdge_jsTrim _

theorem map_nl_id : ∀ {p : Str}, '\n' ∉ p →
    p.map (fun c => if c = '\n' then ' ' else c) = p := by
  intro p
  induction p with
  | nil => intro _; rfl
  | cons c p' ih =>
    intro h
    have hc : ¬(c = '\n') := fun hc => h (hc ▸ List.mem_cons_self _ _)
    rw [List.map_cons, if_neg hc, ih (fun hm => h (List.mem_cons_of_mem _ hm))]

theorem reFlow_eq_self {p : Str} (hnl : '\n' ∉ p) (hw : noWsEdge p = true) :
    reFlow p = p := by
  unfold reFlow
  rw [map_nl_id hnl]
  exact jsTrim_of_noWsEdge hw

theorem cleanParas_props {s : Str} :
    ∀ p ∈ cleanParas s, p ≠ [] ∧ '\n' ∉ p ∧ noWsEdge p = true := by
  intro p hp
  unfold cleanParas dedupFirst at hp
  have hp₂ := dedupFirstAux_mem hp
  have hpf := List.of_mem_filter hp₂
  have hpm := List.mem_of_mem_filter hp₂
  obtain ⟨q, _, hq⟩ := List.mem_map.mp hpm
  refine ⟨by simpa using hpf, ?_, ?_⟩
  · rw [← hq]
    exact reFlow_no_nl q
  · rw [← hq]
    exact noWsEdge_reFlow q

theorem cleanParas_nodup (s : Str) : (cleanParas s).Nodup :=
  dedupFirstAux_nodup _ []


theorem splitParasAux_cons_ne (acc : Str) (c : Char) (rest : Str) (hc : c ≠ '\n') :
    splitParasAux acc (c :: rest) = splitParasAux (c :: acc) rest := by
  rw [splitParasAux]
  simp [hc]

theorem splitParasAux_sep (acc rest rem : Str) (h : sepTail rest = some rem) :
    splitParasAux acc ('\n' :: rest) = acc.reverse :: splitParasAux [] rem := by
  rw [splitParasAux]
  simp only [reduceIte]
  split
  · rename_i rem₂ heq
    rw [heq] at h
    injection h with hh
    rw [hh]
  · rename_i heq
    rw [heq] at h
    cases h

theorem splitParasAux_nil (acc : Str) : splitParasAux acc [] = [acc.reverse] := by
  rw [splitParasAux]

theorem splitOnNNAux_cons_ne (acc : Str) (c : Char) (rest : Str) (hc : c ≠ '\n') :
    splitOnNNAux acc (c :: rest) = splitOnNNAux (c :: acc) rest := by
  conv_lhs => rw [splitOnNNAux.eq_def]
  show (if c = '\n' then
      match rest with
      | [] => splitOnNNAux (c :: acc) []
      | d :: rest₂ =>
        if d = '\n' then acc.reverse :: splitOnNNAux [] rest₂
        else splitOnNNAux (c :: acc) (d :: rest₂)
    else splitOnNNAux (c :: acc) rest) = splitOnNNAux (c :: acc) rest
  rw [if_neg hc]

theorem splitOnNNAux_sep (acc rest : Str) :
    splitOnNNAux acc ('\n' :: '\n' :: rest) = acc.reverse :: splitOnNNAux [] rest := by
  conv_lhs => rw [splitOnNNAux.eq_def]
  show (if '\n' = '\n' then acc.reverse :: splitOnNNAux [] rest
    else splitOnNNAux ('\n' :: acc) ('\n' :: rest)) = acc.reverse :: splitOnNNAux [] rest
  rw [if_pos rfl]

theorem sepTail_cons_nl (t : Str)
    (h : ∀ c, t.head? = some c → jsWhitespace c = false) :
    sepTail ('\n' :: t) = some t := by
  have hst : sepTail t = none := by
    cases t with
    | nil => rfl
    | cons d t' =>
      unfold sepTail
      rw [h d rfl]
      simp
  unfold sepTail
  rw [hst]
  simp [jsWhitespace]

theorem splitParasAux_append : ∀ (p acc t : Str), '\n' ∉ p →
    splitParasAux acc (p ++ t) = splitParasAux (p.reverse ++ acc) t := by
  intro p
  induction p with
  | nil => intro acc t _; simp
  | cons c p' ih =>
    intro acc t hp
    have hc : c ≠ '\n' := fun h => hp (h ▸ List.mem_cons_self _ _)
    rw [List.cons_append, splitParasAux_cons_ne _ _ _ hc,
      ih _ _ (fun hm => hp (List.mem_cons_of_mem _ hm))]
    congr 1
    simp

theorem splitOnNNAux_append : ∀ (p acc t : Str), '\n' ∉ p →
    splitOnNNAux acc (p ++ t) = splitOnNNAux (p.reverse ++ acc) t := by
  intro p
  induction p with
  | nil => intro acc t _; simp
  | cons c p' ih =>
    intro acc t hp
    have hc : c ≠ '\n' := fun h => hp (h ▸ List.mem_cons_self _ _)
    rw [List.cons_append, splitOnNNAux_cons_ne _ _ _ hc,
      ih _ _ (fun hm => hp (List.mem_cons_of_mem _ hm))]
    congr 1
    simp

theorem splitParas_no_nl (s : Str) (h : '\n' ∉ s) : splitParas s = [s] := by
  unfold splitParas
  have h₂ := splitParasAux_append s [] [] h
  rw [List.append_nil] at h₂
  rw [h₂, List.append_nil, splitParasAux_nil, List.reverse_reverse]

theorem splitOnNN_no_nl (s : Str) (h : '\n' ∉ s) : splitOnNN s = [s] := by
  unfold splitOnNN
  have h₂ := splitOnNNAux_append s [] [] h
  rw [List.append_nil] at h₂
  rw [h₂, List.append_nil]
  unfold splitOnNNAux
  rw [List.reverse_reverse]

theorem joinSep_head_cons (q : Str) (l : List Str) (hq : q ≠ []) :
    (joinSep ['\n', '\n'] (q :: l)).head? = q.head? := by
  cases l with
  | nil => rfl
  | cons r l' =>
    cases q with
    | nil => exact absurd rfl hq
    | cons c q' => rfl

theorem splitParas_joinSep : ∀ (l : List Str), l ≠ [] →
    (∀ p ∈ l, p ≠ [] ∧ '\n' ∉ p ∧ noWsEdge p = true) →
    splitParas (joinSep ['\n', '\n'] l) = l := by
  intro l
  induction l with
  | nil => intro h _; exact absurd rfl h
  | cons p l' ih =>
    intro _ hprops
    obtain ⟨hpne, hpnl, hpw⟩ := hprops p (List.mem_cons_self _ _)
    cases l' with
    | nil => exact splitParas_no_nl p hpnl
    | cons q l'' =>
      obtain ⟨hqne, hqnl, hqw⟩ := hprops q (List.mem_cons_of_mem _ (List.mem_cons_self _ _))
      have hjoin : joinSep ['\n', '\n'] (p :: q :: l'') =
          p ++ ('\n' :: '\n' :: joinSep ['\n', '\n'] (q :: l'')) := by
        show p ++ ['\n', '\n'] ++ joinSep ['\n', '\n'] (q :: l'') = _
        simp
      have hhead : ∀ c, (joinSep ['\n', '\n'] (q :: l'')).head? = some c →
          jsWhitespace c = false := by
        intro c hc
        rw [joinSep_head_cons q l'' hqne] at hc
        exact noWsEdge_head hqw c hc
      unfold splitParas
      rw [hjoin, splitParasAux_append p [] _ hpnl,
        splitParasAux_sep _ _ _ (sepTail_cons_nl _ hhead)]
      rw [List.append_nil, List.reverse_reverse]
      congr 1
      exact ih (List.cons_ne_nil q l'')
        (fun r hr => hprops r (List.mem_cons_of_mem _ hr))

theorem splitOnNN_joinSep : ∀ (l : List Str), l ≠ [] →
    (∀ p ∈ l, '\n' ∉ p) →
    splitOnNN (joinSep ['\n', '\n'] l) = l := by
  intro l
  induction l with
  | nil => intro h _; exact absurd rfl h
  | cons p l' ih =>
    intro _ hprops
    have hpnl := hprops p (List.mem_cons_self _ _)
    cases l' with
    | nil => exact splitOnNN_no_nl p hpnl
    | cons q l'' =>
      have hjoin : joinSep ['\n', '\n'] (p :: q :: l'') =
          p ++ ('\n' :: '\n' :: joinSep ['\n', '\n'] (q :: l'')) := by
        show p ++ ['\n', '\n'] ++ joinSep ['\n', '\n'] (q :: l'') = _
        simp
      unfold splitOnNN
      rw [hjoin, splitOnNNAux_append p [] _ hpnl, splitOnNNAux_sep]
      rw [List.append_nil, List.reverse_reverse]
      congr 1
      exact ih (List.cons_ne_nil q l'')
        (fun r hr => hprops r (List.mem_cons_of_mem _ hr))

theorem mapReFlow_id : ∀ {m : List Str}, (∀ p ∈ m, '\n' ∉ p ∧ noWsEdge p = true) →
    m.map reFlow = m := by
  intro m
  induction m with
  | nil => intro _; rfl
  | cons p m' ih =>
    intro h
    rw [List.map_cons,
      reFlow_eq_self (h p (List.mem_cons_self _ _)).1 (h p (List.mem_cons_self _ _)).2,
      ih (fun q hq => h q (List.mem_cons_of_mem _ hq))]

theorem filter_ne_nil_id : ∀ {m : List Str}, (∀ p ∈ m, p ≠ []) →
    m.filter (fun p => p ≠ []) = m := by
  intro m
  induction m with
  | nil => intro _; rfl
  | cons p m' ih =>
    intro h
    have hp : (decide (p ≠ [])) = true := decide_eq_true (h p (List.mem_cons_self _ _))
    rw [List.filter_cons, hp]
    simp only [if_true]
    rw [ih (fun q hq => h q (List.mem_cons_of_mem _ hq))]

theorem cleanParas_joinSep (l : List Str) (hne : l ≠ []) (hnd : l.Nodup)
    (hprops : ∀ p ∈ l, p ≠ [] ∧ '\n' ∉ p ∧ noWsEdge p = true) :
    cleanParas (joinSep ['\n', '\n'] l) = l := by
  unfold cleanParas
  rw [splitParas_joinSep l hne hprops,
    mapReFlow_id (fun p hp => ⟨(hprops p hp).2.1, (hprops p hp).2.2⟩),
    filter_ne_nil_id (fun p hp => (hprops p hp).1)]
  exact dedupFirstAux_eq_self hnd (fun x _ hx => (List.not_mem_nil x) hx)

theorem cleanStr_fixed (s : Str) (hcp : cleanParas s ≠ []) :
    cleanJobDescriptionStr (cleanJobDescriptionStr s) = cleanJobDescriptionStr s := by
  have h : cleanParas (cleanJobDescriptionStr s) = cleanParas s := by
    unfold cleanJobDescriptionStr
    exact cleanParas_joinSep _ hcp (cleanParas_nodup s) (fun p hp => cleanParas_props p hp)
  show joinSep ['\n', '\n'] (cleanParas (cleanJobDescriptionStr s)) = _
  rw [h]
  rfl

theorem clean_noDescription_fixed :
    cleanJobDescription (vStr noDescription) = noDescription := by
  show (if noDescription = [] then noDescription else cleanJobDescriptionStr noDescription) =
    noDescription
  rw [if_neg (by decide)]
  unfold cleanJobDescriptionStr cleanParas
  rw [splitParas_no_nl _ (by decide)]
  rfl

/-- C8 counterexample: cleanJobDescription is not idempotent on string inputs.
On the one-space string it returns the empty string, but on the empty string -
its own output - it returns the default text instead, so the second
application differs from the first. -/
theorem cleanJobDescription_not_idempotent_on_blank :
    cleanJobDescription (vStr [' ']) = [] ∧
    cleanJobDescription (vStr (cleanJobDescription (vStr [' ']))) = noDescription ∧
    cleanJobDescription (vStr (cleanJobDescription (vStr [' ']))) ≠
      cleanJobDescription (vStr [' ']) := by
  have h1 : cleanJobDescription (vStr [' ']) = [] := by
    show (if ([' '] : Str) = [] then noDescription else cleanJobDescriptionStr [' ']) = []
    rw [if_neg (by decide)]
    unfold cleanJobDescriptionStr cleanParas
    rw [splitParas_no_nl _ (by decide)]
    rfl
  refine ⟨h1, ?_, ?_⟩
  · rw [h1]
    rfl
  · rw [h1]
    decide

/-- C8 (amended): for every string input the cleaned description has pairwise
distinct blank-line-separated paragraphs, none containing a newline, and
whenever the output is non-empty a second application of cleanJobDescription
returns it unchanged. -/
theorem cleanJobDescription_paragraphs_contract (s : Str) :
    (splitOnNN (cleanJobDescription (vStr s))).Nodup ∧
    (∀ p ∈ splitOnNN (cleanJobDescription (vStr s)), '\n' ∉ p) ∧
    (cleanJobDescription (vStr s) ≠ [] →
      cleanJobDescription (vStr (cleanJobDescription (vStr s))) =
        cleanJobDescription (vStr s)) := by
  by_cases hs : s = []
  · subst hs
    have hd : cleanJobDescription (vStr []) = noDescription := rfl
    rw [hd, splitOnNN_no_nl _ (by decide)]
    refine ⟨List.nodup_singleton _, ?_, ?_⟩
    · intro p hp
      rw [List.mem_singleton] at hp
      subst hp
      decide
    · intro _
      exact clean_noDescription_fixed
  · have hout : cleanJobDescription (vStr s) = cleanJobDescriptionStr s := by
      show (if s = [] then noDescription else cleanJobDescriptionStr s) = _
      rw [if_neg hs]
    rw [hout]
    by_cases hcp : cleanParas s = []
    · have hnil : cleanJobDescriptionStr s = [] := by
        unfold cleanJobDescriptionStr
        rw [hcp]
        rfl
      rw [hnil]
      refine ⟨?_, ?_, ?_⟩
      · decide
      · intro p hp
        have hp₂ : p = [] := by
          have hsp : splitOnNN ([] : Str) = [[]] := rfl
          rw [hsp, List.mem_singleton] at hp
          exact hp
        rw [hp₂]
        exact List.not_mem_nil _
      · intro h
        exact absurd rfl h
    · have hnlfree : ∀ p ∈ cleanParas s, '\n' ∉ p :=
        fun p hp => (cleanParas_props p hp).2.1
      have hsplit : splitOnNN (cleanJobDescriptionStr s) = cleanParas s := by
        unfold cleanJobDescriptionStr
        exact splitOnNN_joinSep _ hcp hnlfree
      refine ⟨?_, ?_, ?_⟩
      · rw [hsplit]
        exact cleanParas_nodup s
      · rw [hsplit]
        exact hnlfree
      · intro hne2
        show (if cleanJobDescriptionStr s = [] then noDescription
          else cleanJobDescriptionStr (cleanJobDescriptionStr s)) = _
        rw [if_neg hne2]
        exact cleanStr_fixed s hcp

/-- C8 witness: the contract instantiated on the one-character description,
with the non-emptiness hypothesis of the idempotence conjunct discharged. -/
theorem cleanJobDescription_paragraphs_contract_witness :
    (splitOnNN (cleanJobDescription (vStr ['a']))).Nodup ∧
    (∀ p ∈ splitOnNN (cleanJobDescription (vStr ['a'])), '\n' ∉ p) ∧
    cleanJobDescription (vStr (cleanJobDescription (vStr ['a']))) =
      cleanJobDescription (vStr ['a']) := by
  obtain ⟨h1, h2, h3⟩ := cleanJobDescription_paragraphs_contract ['a']
  refine ⟨h1, h2, h3 ?_⟩
  have hval : cleanJobDescription (vStr ['a']) = ['a'] := by
    show (if (['a'] : Str) = [] then noDescription else cleanJobDescriptionStr ['a']) = ['a']
    rw [if_neg (by decide)]
    unfold cleanJobDescriptionStr cleanParas
    rw [splitParas_no_nl _ (by decide)]
    rfl
  rw [hval]
  decide

end SmartChat
